import Mathlib

/-!
Verification of the topa-expert-survey repository

A shallow embedding, in Lean 4, of the code of the `topa-expert-survey`
repository: the Cloudflare worker (`worker/src/index.ts`: signed session
tokens, access-code gating, vote upserts, the `fetch` handler) and the
frontend pairing logic (`nextPair`, `stableShuffle`, `hash32`, `mulberry32`
from the two App variants).

Modelling conventions:
* JavaScript strings are Lean `String`s (lists of unicode scalar values);
  places where JavaScript operates on UTF-16 code units (`charCodeAt`) are
  modelled by an explicit conversion to UTF-16 code units.
* Machine arithmetic (`Math.imul`, `>>>`, `^`, `|`) is modelled over `Nat`
  with explicit `% 2 ^ 32` where overflow/truncation matters.
* JSON values are the inductive `Json` below, with JSON numbers restricted to
  exact integers (the only numbers this program ever serialises are integral
  epoch-millisecond timestamps; IEEE-754 fractional printing is out of scope).
* Platform primitives not part of the repository (TextEncoder/TextDecoder,
  btoa/atob, JSON.stringify/JSON.parse, SHA-256 and HMAC from WebCrypto,
  Date.parse, Date.prototype.toISOString) are implemented here to their
  public specifications, restricted where noted in their doc comments.
* Fallible / throwing code is modelled with `Option` / `Except String`; an
  uncaught JavaScript exception escaping the handler is an `Except.error`.
* The D1 database is modelled as explicit state: a record of the two tables,
  threaded through the handler.
-/

/-! ## Generic list and character helpers -/

/-! ## Definitions -/

/-- Split a list of characters at every occurrence of the separator `c`
(the model of JavaScript `String.prototype.split` with a one-character
separator): `splitCh '.' "a.b".data = ["a".data, "b".data]`. -/
def splitCh (c : Char) : List Char → List (List Char)
  | [] => [[]]
  | x :: xs =>
    match splitCh c xs with
    | [] => if x = c then [[], []] else [[x]]
    | h :: t => if x = c then [] :: h :: t else (x :: h) :: t

/-- ASCII whitespace recognised by trimming (space, tab, LF, CR, FF, VT).
JavaScript `trim` also strips some exotic unicode spaces; the strings this
program trims are ASCII. -/
def isWsChar (c : Char) : Bool :=
  c = ' ' || c = '\t' || c = '\n' || c = '\r' || c = Char.ofNat 11 || c = Char.ofNat 12

/-- Model of JavaScript `String.prototype.trim` on character lists. -/
def trimChars (l : List Char) : List Char :=
  ((((l.dropWhile isWsChar).reverse).dropWhile isWsChar)).reverse

/-- Model of JavaScript `String.prototype.trim`. -/
def strTrim (s : String) : String :=
  String.mk (trimChars s.data)

/-- Model of JavaScript `String.prototype.toLowerCase` (ASCII range; the
strings this program lowercases are the literals left/right/top/bottom). -/
def strToLower (s : String) : String :=
  String.mk (s.data.map Char.toLower)

/-- `String.prototype.endsWith`, via list suffix testing. -/
def strEndsWith (s suffixStr : String) : Bool :=
  suffixStr.data.isSuffixOf s.data

/-- Decimal digit character for `d < 10`. -/
def digitCh (d : Nat) : Char := Char.ofNat (48 + d)

/-- Digits of `n`, most significant first; structurally recursive on `fuel`
(any `fuel > n` suffices) so that it evaluates by kernel reduction. -/
def natToCharsFuel : Nat → Nat → List Char
  | 0, _ => []
  | fuel + 1, n =>
    if n < 10 then [digitCh n]
    else natToCharsFuel fuel (n / 10) ++ [digitCh (n % 10)]

/-- The decimal digits of a natural number, most significant first
(the model of JavaScript number-to-string on non-negative integers). -/
def natToChars (n : Nat) : List Char := natToCharsFuel (n + 1) n

/-- Decimal rendering of an integer (JavaScript `String(n)` for integral
numbers; `-0` never arises because `Int` has a single zero). -/
def intToChars (n : Int) : List Char :=
  if n < 0 then '-' :: natToChars (-n).toNat else natToChars n.toNat

/-- `String` version of `intToChars`. -/
def intToStr (n : Int) : String := String.mk (intToChars n)

/-! ## JSON values

The inductive datatype of JSON values produced and consumed by the worker.
Numbers are exact integers (see the header note). Object fields keep their
insertion order, as JavaScript objects and `JSON.stringify` do. -/

inductive Json where
  | null : Json
  | bool (b : Bool) : Json
  | num (n : Int) : Json
  | str (s : String) : Json
  | arr (elems : List Json) : Json
  | obj (fields : List (String × Json)) : Json
deriving Repr

/-! ### JSON.stringify -/

/-- Hexadecimal digit (lower case), for control-character escapes. -/
def hexCh (d : Nat) : Char :=
  if d < 10 then Char.ofNat (48 + d) else Char.ofNat (87 + d)

/-- The escape `JSON.stringify` applies to one character of a string. -/
def escapeChar (c : Char) : List Char :=
  if c = '"' then ['\\', '"']
  else if c = '\\' then ['\\', '\\']
  else if c = Char.ofNat 8 then ['\\', 'b']
  else if c = '\t' then ['\\', 't']
  else if c = '\n' then ['\\', 'n']
  else if c = Char.ofNat 12 then ['\\', 'f']
  else if c = '\r' then ['\\', 'r']
  else if c.toNat < 32 then ['\\', 'u', '0', '0', hexCh (c.toNat / 16), hexCh (c.toNat % 16)]
  else [c]

/-- Escaped body of a JSON string literal. -/
def escapeChars (l : List Char) : List Char :=
  (l.map escapeChar).flatten

/-- A quoted JSON string literal. -/
def quoteChars (l : List Char) : List Char :=
  '"' :: escapeChars l ++ ['"']

mutual

/-- Model of `JSON.stringify` (no spacing argument, as the worker calls it),
producing a character list. -/
def stringifyChars : Json → List Char
  | .null => "null".data
  | .bool true => "true".data
  | .bool false => "false".data
  | .num n => intToChars n
  | .str s => quoteChars s.data
  | .arr [] => ['[', ']']
  | .arr (x :: xs) => '[' :: (stringifyChars x ++ stringifyArrRest xs) ++ [']']
  | .obj [] => ['{', '}']
  | .obj (f :: fs) => '{' :: (stringifyField f ++ stringifyObjRest fs) ++ ['}']

/-- Remaining array elements, each preceded by a comma. -/
def stringifyArrRest : List Json → List Char
  | [] => []
  | x :: xs => ',' :: stringifyChars x ++ stringifyArrRest xs

/-- One object field, `"key":value`. -/
def stringifyField : String × Json → List Char
  | (k, v) => quoteChars k.data ++ ':' :: stringifyChars v

/-- Remaining object fields, each preceded by a comma. -/
def stringifyObjRest : List (String × Json) → List Char
  | [] => []
  | f :: fs => ',' :: stringifyField f ++ stringifyObjRest fs

end

/-- `JSON.stringify` as a `String`-valued function. -/
def jsonStringify (v : Json) : String :=
  String.mk (stringifyChars v)

/-! ### JSON.parse

A recursive-descent parser. It is exercised, and proved correct, on the
output of `jsonStringify`; accordingly it handles exactly the grammar
`JSON.stringify` emits (no insignificant whitespace, integral numbers).
The worker only ever parses strings that were produced by
`JSON.stringify`. -/

/-- Value of a hexadecimal digit character. -/
def hexVal (c : Char) : Option Nat :=
  if '0' ≤ c ∧ c ≤ '9' then some (c.toNat - 48)
  else if 'a' ≤ c ∧ c ≤ 'f' then some (c.toNat - 87)
  else if 'A' ≤ c ∧ c ≤ 'F' then some (c.toNat - 55)
  else none

/-- Single-character string escapes accepted after a backslash. -/
def escDecode (e : Char) : Option Char :=
  if e = '"' then some '"'
  else if e = '\\' then some '\\'
  else if e = '/' then some '/'
  else if e = 'b' then some (Char.ofNat 8)
  else if e = 'f' then some (Char.ofNat 12)
  else if e = 'n' then some '\n'
  else if e = 'r' then some '\r'
  else if e = 't' then some '\t'
  else none

/-- Parse the body of a JSON string literal up to the closing quote,
returning the decoded characters and the rest of the input. -/
def parseStrBody : List Char → Option (List Char × List Char)
  | [] => none
  | c :: rest =>
    if c = '"' then some ([], rest)
    else if c = '\\' then
      match rest with
      | [] => none
      | e :: rest' =>
        if e = 'u' then
          match rest' with
          | h1 :: h2 :: h3 :: h4 :: rest'' =>
            match hexVal h1, hexVal h2, hexVal h3, hexVal h4 with
            | some a, some b, some c', some d =>
              (parseStrBody rest'').map
                (fun p => (Char.ofNat (((a * 16 + b) * 16 + c') * 16 + d) :: p.1, p.2))
            | _, _, _, _ => none
          | _ => none
        else
          match escDecode e with
          | some c' => (parseStrBody rest').map (fun p => (c' :: p.1, p.2))
          | none => none
    else if c.toNat < 32 then none
    else (parseStrBody rest).map (fun p => (c :: p.1, p.2))

/-- Longest digit prefix and the remainder. -/
def takeDigits (l : List Char) : List Char × List Char :=
  (l.takeWhile Char.isDigit, l.dropWhile Char.isDigit)

/-- Numeric value of a list of decimal digit characters. -/
def digitsVal (l : List Char) : Nat :=
  l.foldl (fun a c => a * 10 + (c.toNat - 48)) 0

/-- Parse a non-negative integer literal. -/
def parseNat (l : List Char) : Option (Nat × List Char) :=
  let p := takeDigits l
  if p.1 = [] then none else some (digitsVal p.1, p.2)

mutual

/-- Parse one JSON value. `fuel` strictly decreases on every recursive call;
`jsonParse` supplies enough of it for any input (see `jfuel_le_len`). -/
def parseVal : Nat → List Char → Option (Json × List Char)
  | 0, _ => none
  | fuel + 1, cs =>
    match cs with
    | [] => none
    | c :: rest =>
      if c = 'n' then
        match rest with
        | 'u' :: 'l' :: 'l' :: r => some (.null, r)
        | _ => none
      else if c = 't' then
        match rest with
        | 'r' :: 'u' :: 'e' :: r => some (.bool true, r)
        | _ => none
      else if c = 'f' then
        match rest with
        | 'a' :: 'l' :: 's' :: 'e' :: r => some (.bool false, r)
        | _ => none
      else if c = '"' then
        (parseStrBody rest).map (fun p => (.str (String.mk p.1), p.2))
      else if c = '-' then
        (parseNat rest).map (fun p => (.num (-(p.1 : Int)), p.2))
      else if c = '[' then
        if rest.head? = some ']' then some (.arr [], rest.tail)
        else (parseArrElems fuel rest).map (fun p => (.arr p.1, p.2))
      else if c = '{' then
        if rest.head? = some '}' then some (.obj [], rest.tail)
        else (parseObjFields fuel rest).map (fun p => (.obj p.1, p.2))
      else if c.isDigit then
        (parseNat (c :: rest)).map (fun p => (.num (p.1 : Int), p.2))
      else none

/-- Parse one or more comma-separated array elements and the closing `]`. -/
def parseArrElems : Nat → List Char → Option (List Json × List Char)
  | 0, _ => none
  | fuel + 1, cs =>
    match parseVal fuel cs with
    | none => none
    | some (v, rest) =>
      match rest with
      | ']' :: r => some ([v], r)
      | ',' :: r => (parseArrElems fuel r).map (fun p => (v :: p.1, p.2))
      | _ => none

/-- Parse one or more comma-separated object fields and the closing `}`. -/
def parseObjFields : Nat → List Char → Option (List (String × Json) × List Char)
  | 0, _ => none
  | fuel + 1, cs =>
    match cs with
    | '"' :: cs' =>
      match parseStrBody cs' with
      | none => none
      | some (k, rest) =>
        match rest with
        | ':' :: rest' =>
          match parseVal fuel rest' with
          | none => none
          | some (v, rest'') =>
            match rest'' with
            | '}' :: r => some ([(String.mk k, v)], r)
            | ',' :: r => (parseObjFields fuel r).map (fun p => ((String.mk k, v) :: p.1, p.2))
            | _ => none
        | _ => none
    | _ => none

end

mutual

/-- Fuel sufficient for `parseVal` on the serialisation of `v`. -/
def jfuel : Json → Nat
  | .null | .bool _ | .num _ | .str _ => 1
  | .arr xs => 1 + afuel xs
  | .obj fs => 1 + ofuel fs

/-- Fuel sufficient for `parseArrElems` on a non-empty element list. -/
def afuel : List Json → Nat
  | [] => 1
  | x :: xs => 1 + max (jfuel x) (afuel xs)

/-- Fuel sufficient for `parseObjFields` on a non-empty field list. -/
def ofuel : List (String × Json) → Nat
  | [] => 1
  | (_, v) :: fs => 1 + max (jfuel v) (ofuel fs)

end

/-- Model of `JSON.parse` (on the grammar noted at `parseVal`): parse a
value and require the input to be fully consumed. -/
def jsonParse (s : String) : Option Json :=
  match parseVal (s.data.length + 1) s.data with
  | some (v, []) => some v
  | _ => none

/-! ### Round-trip: the parser recovers `jsonStringify` output -/

/-- Inputs a number literal may be followed by (anything not starting with a
digit); the serialiser only ever places `,`, `]`, `}` or end-of-input there. -/
def delimOk : List Char → Prop
  | [] => True
  | c :: _ => c.isDigit = false

/-! ## UTF-8 (TextEncoder / TextDecoder) -/

/-- UTF-8 bytes of one unicode scalar value (model of `TextEncoder`). -/
def utf8EncodeCh (c : Char) : List Nat :=
  let n := c.toNat
  if n < 128 then [n]
  else if n < 2048 then [192 + n / 64, 128 + n % 64]
  else if n < 65536 then [224 + n / 4096, 128 + (n / 64) % 64, 128 + n % 64]
  else [240 + n / 262144, 128 + (n / 4096) % 64, 128 + (n / 64) % 64, 128 + n % 64]

/-- Model of `TextEncoder.prototype.encode`: the UTF-8 bytes of a string. -/
def utf8Encode (s : String) : List Nat :=
  (s.data.map utf8EncodeCh).flatten

/-- The scalar value of a two-byte UTF-8 sequence, with validity checks. -/
def utf8Scalar2 (b0 b1 : Nat) : Option Nat :=
  if 128 ≤ b1 ∧ b1 < 192 then
    let n := (b0 - 192) * 64 + (b1 - 128)
    if 128 ≤ n then some n else none
  else none

/-- The scalar value of a three-byte UTF-8 sequence, with validity checks. -/
def utf8Scalar3 (b0 b1 b2 : Nat) : Option Nat :=
  if (128 ≤ b1 ∧ b1 < 192) ∧ (128 ≤ b2 ∧ b2 < 192) then
    let n := (b0 - 224) * 4096 + (b1 - 128) * 64 + (b2 - 128)
    if 2048 ≤ n ∧ ¬(55296 ≤ n ∧ n < 57344) then some n else none
  else none

/-- The scalar value of a four-byte UTF-8 sequence, with validity checks. -/
def utf8Scalar4 (b0 b1 b2 b3 : Nat) : Option Nat :=
  if (128 ≤ b1 ∧ b1 < 192) ∧ (128 ≤ b2 ∧ b2 < 192) ∧ (128 ≤ b3 ∧ b3 < 192) then
    let n := (b0 - 240) * 262144 + (b1 - 128) * 4096 + (b2 - 128) * 64 + (b3 - 128)
    if 65536 ≤ n ∧ n < 1114112 then some n else none
  else none

/-- Decode one UTF-8 sequence from the front of the byte list, returning the
scalar value and the remaining bytes. Not recursive. -/
def utf8DecodeOne (bytes : List Nat) : Option (Nat × List Nat) :=
  match bytes with
  | [] => none
  | b0 :: rest =>
    if b0 < 128 then some (b0, rest)
    else if b0 < 192 then none
    else if b0 < 224 then
      match rest with
      | b1 :: rest' => (utf8Scalar2 b0 b1).map (fun n => (n, rest'))
      | [] => none
    else if b0 < 240 then
      match rest with
      | b1 :: b2 :: rest' => (utf8Scalar3 b0 b1 b2).map (fun n => (n, rest'))
      | _ => none
    else if b0 < 248 then
      match rest with
      | b1 :: b2 :: b3 :: rest' => (utf8Scalar4 b0 b1 b2 b3).map (fun n => (n, rest'))
      | _ => none
    else none

/-- Decoding loop; `fuel ≥ bytes.length` suffices since every step consumes
at least one byte. -/
def utf8DecodeLoop : Nat → List Nat → Option (List Char)
  | _, [] => some []
  | 0, _ :: _ => none
  | fuel + 1, b0 :: rest =>
    match utf8DecodeOne (b0 :: rest) with
    | some (n, rest') => (utf8DecodeLoop fuel rest').map (fun l => Char.ofNat n :: l)
    | none => none

/-- Decode UTF-8 bytes into characters. Restricted to valid input: the real
`TextDecoder` substitutes U+FFFD for invalid sequences instead of failing,
but the worker only decodes bytes that are valid UTF-8 by construction. -/
def utf8DecodeChars (bytes : List Nat) : Option (List Char) :=
  utf8DecodeLoop bytes.length bytes

/-- Model of `TextDecoder.prototype.decode` (see `utf8DecodeChars`). -/
def utf8Decode (bytes : List Nat) : Option String :=
  (utf8DecodeChars bytes).map String.mk

/-! ## Base64 (btoa / atob) and the base64url variant used by the worker -/

/-- The base64 alphabet character for a 6-bit value. -/
def b64Ch (n : Nat) : Char :=
  (['A', 'B', 'C', 'D', 'E', 'F', 'G', 'H', 'I', 'J', 'K', 'L', 'M',
    'N', 'O', 'P', 'Q', 'R', 'S', 'T', 'U', 'V', 'W', 'X', 'Y', 'Z',
    'a', 'b', 'c', 'd', 'e', 'f', 'g', 'h', 'i', 'j', 'k', 'l', 'm',
    'n', 'o', 'p', 'q', 'r', 's', 't', 'u', 'v', 'w', 'x', 'y', 'z',
    '0', '1', '2', '3', '4', '5', '6', '7', '8', '9', '+', '/']).getD n 'A'

/-- The 6-bit value of a base64 alphabet character. -/
def b64Index (c : Char) : Option Nat :=
  if 'A' ≤ c ∧ c ≤ 'Z' then some (c.toNat - 65)
  else if 'a' ≤ c ∧ c ≤ 'z' then some (c.toNat - 71)
  else if '0' ≤ c ∧ c ≤ '9' then some (c.toNat + 4)
  else if c = '+' then some 62
  else if c = '/' then some 63
  else none

/-- Model of `btoa` on a byte list (the worker builds the latin-1 argument
of `btoa` with one `String.fromCharCode` per byte, so the byte list is the
faithful domain). -/
def btoaBytes : List Nat → List Char
  | [] => []
  | [b0] => [b64Ch (b0 / 4), b64Ch (b0 % 4 * 16), '=', '=']
  | [b0, b1] => [b64Ch (b0 / 4), b64Ch (b0 % 4 * 16 + b1 / 16), b64Ch (b1 % 16 * 4), '=']
  | b0 :: b1 :: b2 :: rest =>
    b64Ch (b0 / 4) :: b64Ch (b0 % 4 * 16 + b1 / 16) :: b64Ch (b1 % 16 * 4 + b2 / 64)
      :: b64Ch (b2 % 64) :: btoaBytes rest

/-- Model of `atob` (strict padded base64, which is all the worker feeds it;
invalid input, on which the real `atob` throws, is `none`). -/
def atobChars : List Char → Option (List Nat)
  | [] => some []
  | c0 :: c1 :: c2 :: c3 :: rest =>
    match b64Index c0, b64Index c1 with
    | some v0, some v1 =>
      if c2 = '=' then
        if c3 = '=' ∧ rest = [] then some [v0 * 4 + v1 / 16] else none
      else
        match b64Index c2 with
        | some v2 =>
          if c3 = '=' then
            if rest = [] then some [v0 * 4 + v1 / 16, v1 % 16 * 16 + v2 / 4] else none
          else
            match b64Index c3 with
            | some v3 =>
              (atobChars rest).map
                (fun bs => (v0 * 4 + v1 / 16) :: (v1 % 16 * 16 + v2 / 4)
                  :: (v2 % 4 * 64 + v3) :: bs)
            | none => none
        | none => none
    | _, _ => none
  | _ => none

/-- The character replacement `'+' → '-'`, `'/' → '_'` of `base64UrlEncode`
(the two global regex replaces in the source). -/
def urlMapCh (c : Char) : Char :=
  if c = '+' then '-' else if c = '/' then '_' else c

/-- The reverse replacement `'-' → '+'`, `'_' → '/'` done by `fromB64Json`. -/
def urlUnmapCh (c : Char) : Char :=
  if c = '-' then '+' else if c = '_' then '/' else c

/-- Strip the trailing `'='` run (the `replace(/=+$/g, "")` of the source). -/
def stripTrailingEq (l : List Char) : List Char :=
  (l.reverse.dropWhile (fun c => c = '=')).reverse

/-- Model of `base64UrlEncode` from `worker/src/index.ts`. -/
def base64UrlEncode (bytes : List Nat) : String :=
  String.mk (stripTrailingEq ((btoaBytes bytes).map urlMapCh))

/-- Number of padding characters `btoa` appends for a payload of `n` bytes. -/
def b64PadK (n : Nat) : Nat := (3 - n % 3) % 3

/-- `b64Json` from `worker/src/index.ts`. -/
def b64Json (v : Json) : String :=
  base64UrlEncode (utf8Encode (jsonStringify v))

/-- `fromB64Json` from `worker/src/index.ts`: undo the url mapping, restore
padding, `atob`, UTF-8 decode, `JSON.parse`. The `s.length` used for the
padding arithmetic is the UTF-16 length; the strings the worker passes here
are ASCII, where it coincides with the scalar count. -/
def fromB64Json (s : String) : Option Json :=
  match atobChars (s.data.map urlUnmapCh
      ++ List.replicate (3 - (s.data.length + 3) % 4) '=') with
  | none => none
  | some bytes =>
    match utf8Decode bytes with
    | none => none
    | some str => jsonParse str

/-! ## SHA-256 and HMAC-SHA-256 (the WebCrypto primitives used by the worker) -/

/-- Truncate to 32 bits. -/
def w32 (n : Nat) : Nat := n % 4294967296

/-- 32-bit rotate right. -/
def rotr32 (x n : Nat) : Nat := w32 (x / 2 ^ n + x % 2 ^ n * 2 ^ (32 - n))

/-- 32-bit logical shift right. -/
def shr32 (x n : Nat) : Nat := x / 2 ^ n

/-- The SHA-256 round constants. -/
def sha256K : List Nat :=
  [1116352408, 1899447441, 3049323471, 3921009573, 961987163, 1508970993,
   2453635748, 2870763221, 3624381080, 310598401, 607225278, 1426881987,
   1925078388, 2162078206, 2614888103, 3248222580, 3835390401, 4022224774,
   264347078, 604807628, 770255983, 1249150122, 1555081692, 1996064986,
   2554220882, 2821834349, 2952996808, 3210313671, 3336571891, 3584528711,
   113926993, 338241895, 666307205, 773529912, 1294757372, 1396182291,
   1695183700, 1986661051, 2177026350, 2456956037, 2730485921, 2820302411,
   3259730800, 3345764771, 3516065817, 3600352804, 4094571909, 275423344,
   430227734, 506948616, 659060556, 883997877, 958139571, 1322822218,
   1537002063, 1747873779, 1955562222, 2024104815, 2227730452, 2361852424,
   2428436474, 2756734187, 3204031479, 3329325298]

/-- SHA-256 working state: eight 32-bit words. -/
structure Sha256State where
  a : Nat
  b : Nat
  c : Nat
  d : Nat
  e : Nat
  f : Nat
  g : Nat
  h : Nat

/-- The SHA-256 initial hash value. -/
def sha256Init : Sha256State :=
  ⟨1779033703, 3144134277, 1013904242, 2773480762,
   1359893119, 2600822924, 528734635, 1541459225⟩

/-- Big-endian 32-bit words from bytes. -/
def beWords : List Nat → List Nat
  | b0 :: b1 :: b2 :: b3 :: rest =>
    (((b0 * 256 + b1) * 256 + b2) * 256 + b3) :: beWords rest
  | _ => []

/-- Extend the 16-word message schedule to 64 words (48 extension steps). -/
def sha256Wext : Nat → List Nat → List Nat
  | 0, w => w
  | k + 1, w =>
    let i := w.length
    let w15 := w.getD (i - 15) 0
    let w2 := w.getD (i - 2) 0
    let w16 := w.getD (i - 16) 0
    let w7 := w.getD (i - 7) 0
    let s0 := (rotr32 w15 7) ^^^ (rotr32 w15 18) ^^^ (shr32 w15 3)
    let s1 := (rotr32 w2 17) ^^^ (rotr32 w2 19) ^^^ (shr32 w2 10)
    sha256Wext k (w ++ [w32 (w16 + s0 + w7 + s1)])

/-- One SHA-256 compression round. -/
def sha256Round (st : Sha256State) (ki wi : Nat) : Sha256State :=
  let s1 := (rotr32 st.e 6) ^^^ (rotr32 st.e 11) ^^^ (rotr32 st.e 25)
  let ch := (st.e &&& st.f) ^^^ ((st.e ^^^ 4294967295) &&& st.g)
  let temp1 := w32 (st.h + s1 + ch + ki + wi)
  let s0 := (rotr32 st.a 2) ^^^ (rotr32 st.a 13) ^^^ (rotr32 st.a 22)
  let maj := (st.a &&& st.b) ^^^ (st.a &&& st.c) ^^^ (st.b &&& st.c)
  let temp2 := w32 (s0 + maj)
  ⟨w32 (temp1 + temp2), st.a, st.b, st.c, w32 (st.d + temp1), st.e, st.f, st.g⟩

/-- Compress one 64-byte block into the running state. -/
def sha256Compress (st : Sha256State) (block : List Nat) : Sha256State :=
  let w := sha256Wext 48 (beWords block)
  let r := (sha256K.zip w).foldl (fun s p => sha256Round s p.1 p.2) st
  ⟨w32 (st.a + r.a), w32 (st.b + r.b), w32 (st.c + r.c), w32 (st.d + r.d),
   w32 (st.e + r.e), w32 (st.f + r.f), w32 (st.g + r.g), w32 (st.h + r.h)⟩

/-- Big-endian bytes of a 64-bit length field. -/
def be64 (n : Nat) : List Nat :=
  [n / 72057594037927936 % 256, n / 281474976710656 % 256, n / 1099511627776 % 256,
   n / 4294967296 % 256, n / 16777216 % 256, n / 65536 % 256, n / 256 % 256, n % 256]

/-- Big-endian bytes of a 32-bit word. -/
def be32 (n : Nat) : List Nat :=
  [n / 16777216 % 256, n / 65536 % 256, n / 256 % 256, n % 256]

/-- SHA-256 padding: a 0x80 byte, zeros to 56 mod 64, the bit length. -/
def sha256Pad (msg : List Nat) : List Nat :=
  msg ++ 128 :: List.replicate ((119 - msg.length % 64) % 64) 0 ++ be64 (msg.length * 8)

/-- Split into 64-byte blocks (`fuel ≥ list length` suffices). -/
def chunks64 : Nat → List Nat → List (List Nat)
  | 0, _ => []
  | _ + 1, [] => []
  | fuel + 1, l => l.take 64 :: chunks64 fuel (l.drop 64)

/-- SHA-256 of a byte list (model of `crypto.subtle.digest("SHA-256", ·)`). -/
def sha256Bytes (msg : List Nat) : List Nat :=
  let padded := sha256Pad msg
  let st := (chunks64 padded.length padded).foldl sha256Compress sha256Init
  be32 st.a ++ be32 st.b ++ be32 st.c ++ be32 st.d
    ++ be32 st.e ++ be32 st.f ++ be32 st.g ++ be32 st.h

/-- `sha256Hex` from `worker/src/index.ts`: lower-case hex of the digest of
the UTF-8 bytes. -/
def sha256Hex (s : String) : String :=
  String.mk (((sha256Bytes (utf8Encode s)).map
    (fun b => [hexCh (b / 16), hexCh (b % 16)])).flatten)

/-- HMAC key: UTF-8 secret, hashed if longer than the 64-byte block,
zero-padded to the block size. -/
def hmacKeyBytes (secret : String) : List Nat :=
  let k := utf8Encode secret
  let k' := if 64 < k.length then sha256Bytes k else k
  k' ++ List.replicate (64 - k'.length) 0

/-- HMAC-SHA-256 (model of the WebCrypto HMAC used by `hmacSign`). -/
def hmacSha256 (secret : String) (msg : List Nat) : List Nat :=
  let k := hmacKeyBytes secret
  sha256Bytes ((k.map (fun b => b ^^^ 92)) ++ sha256Bytes ((k.map (fun b => b ^^^ 54)) ++ msg))

/-- `hmacSign` from `worker/src/index.ts`: base64url of the HMAC tag. -/
def hmacSign (secret data : String) : String :=
  base64UrlEncode (hmacSha256 secret (utf8Encode data))

/-! ## The worker (`worker/src/index.ts`): environment, database, tokens -/

/-- The worker environment (`Env` in the source; the D1 binding is modelled
as explicit state below). -/
structure Env where
  TOKEN_SECRET : String
  ALLOWED_ORIGINS : String

/-- A row of the `access_codes` table (`AccessCodeRow` in the source). -/
structure AccessCodeRow where
  code_hash : String
  active : Int
  uses_remaining : Option Int
  expires_at : Option String

/-- A row of the `votes` table (`VoteRow` in the source). `trial_id` is the
result of a JavaScript `Number(...)` coercion, so `none` models NaN. -/
structure VoteRow where
  id : String
  participant_id : String
  component : String
  trial_id : Option Int
  left_method_id : String
  right_method_id : String
  preferred : String
  timestamp_utc : String
  user_agent : String
  page_url : String
  received_at : String

/-- The D1 database, as explicit state. -/
structure DB where
  access_codes : List AccessCodeRow
  votes : List VoteRow

/-- An incoming request: method, `Origin` header ("" when missing), URL
pathname, and the JSON body as `req.json().catch(() => ({}))` leaves it
(so a parse failure has already been replaced by the empty object). -/
structure Req where
  method : String
  origin : String
  path : String
  body : Json

/-- A response: HTTP status and JSON body (`Json.null` for the empty
OPTIONS body). CORS headers carry no claim-relevant state. -/
structure WorkerResponse where
  status : Nat
  body : Json

/-! ### JavaScript value semantics used by the handlers -/

/-- JavaScript truthiness of a JSON value (NaN cannot arise here, numbers
being exact integers). -/
def jsTruthy : Json → Bool
  | .null => false
  | .bool b => b
  | .num n => n ≠ 0
  | .str s => s ≠ ""
  | .arr _ => true
  | .obj _ => true

/-- Truthiness of a possibly-undefined value. -/
def jsTruthyOpt : Option Json → Bool
  | none => false
  | some v => jsTruthy v

/-- `x || d` on a possibly-undefined value. -/
def jsOr (x : Option Json) (d : Json) : Json :=
  match x with
  | some v => if jsTruthy v then v else d
  | none => d

mutual

/-- JavaScript `String(x)` on a JSON value. Arrays stringify as their
comma-joined elements, objects as `[object Object]`. -/
def jsToString : Json → String
  | .null => "null"
  | .bool true => "true"
  | .bool false => "false"
  | .num n => intToStr n
  | .str s => s
  | .arr xs => String.mk (jsArrToString xs)
  | .obj _ => "[object Object]"

/-- `Array.prototype.join(",")`, which renders `null` elements as `""`. -/
def jsArrToString : List Json → List Char
  | [] => []
  | [x] =>
    match x with
    | .null => []
    | v => (jsToString v).data
  | x :: xs =>
    (match x with
      | .null => []
      | v => (jsToString v).data) ++ ',' :: jsArrToString xs

end

/-- JavaScript property read `v[k]`. Reading a property of `null` throws a
TypeError (the `Except.error`); on other primitives it is `undefined`
(`none`); on objects it finds the binding -- the last one, since
`JSON.parse` keeps the last of duplicate keys. -/
def getProp (v : Json) (k : String) : Except String (Option Json) :=
  match v with
  | .null => .error "TypeError: Cannot read properties of null"
  | .obj fs => .ok ((fs.reverse.find? (fun p => p.1 = k)).map (fun p => p.2))
  | _ => .ok none

/-- Total variant of `getProp` for use in specification statements. -/
def getPropTotal (v : Json) (k : String) : Option Json :=
  match v with
  | .obj fs => (fs.reverse.find? (fun p => p.1 = k)).map (fun p => p.2)
  | _ => none

/-- JavaScript `Number(x)` / numeric coercion; `none` is NaN. String
coercion is modelled for (trimmed, signed) decimal integer strings;
object/array `ToPrimitive` is not modelled (`none`) — the worker only ever
coerces numbers it wrote itself. -/
def jsToNumber : Json → Option Int
  | .null => some 0
  | .bool b => some (if b then 1 else 0)
  | .num n => some n
  | .str s =>
    let t := strTrim s
    if t.data = [] then some 0
    else
      match t.data with
      | '-' :: ds =>
        if ds ≠ [] ∧ ds.all Char.isDigit then some (-(digitsVal ds : Int)) else none
      | ds => if ds.all Char.isDigit then some ((digitsVal ds : Int)) else none
  | .arr _ => none
  | .obj _ => none

/-- The comparison `now > v` after numeric coercion (false against NaN). -/
def jsGtNum (now : Int) (v : Json) : Bool :=
  match jsToNumber v with
  | some n => now > n
  | none => false

/-! ### Tokens -/

/-- `makeToken` from `worker/src/index.ts`. -/
def makeToken (env : Env) (payload : Json) : String :=
  b64Json payload ++ "." ++ hmacSign env.TOKEN_SECRET (b64Json payload)

/-- `String.prototype.split "."`. -/
def splitDotStr (s : String) : List String :=
  (splitCh '.' s.data).map String.mk

/-- `verifyToken` from `worker/src/index.ts`. A throw is an `Except.error`
carrying the thrown message; the platform messages of the `atob` /
`JSON.parse` exceptions inside `fromB64Json` are abstracted to one string. -/
def verifyToken (env : Env) (now : Int) (token : String) : Except String Json :=
  let parts := splitDotStr token
  let body := parts.getD 0 ""
  let sig := parts.getD 1 ""
  if body = "" ∨ sig = "" then .error "Bad token format"
  else if hmacSign env.TOKEN_SECRET body ≠ sig then .error "Bad token signature"
  else
    match fromB64Json body with
    | none => .error "Invalid token payload"
    | some payload =>
      match getProp payload "exp" with
      | .error m => .error m
      | .ok expOpt =>
        if jsTruthyOpt expOpt && jsGtNum now ((expOpt).getD Json.null)
        then .error "Token expired"
        else .ok payload

/-! ### D1 helpers -/

/-- `dbGetAccessCode`: first row whose `code_hash` matches. -/
def dbGetAccessCode (db : DB) (codeHash : String) : Option AccessCodeRow :=
  db.access_codes.find? (fun r => r.code_hash = codeHash)

/-- `dbDecrementUsesRemaining`: subtract one where the hash matches and
`uses_remaining` is non-null and strictly positive. -/
def dbDecrementUsesRemaining (db : DB) (codeHash : String) : DB :=
  { db with access_codes := db.access_codes.map (fun r =>
      match r.uses_remaining with
      | some u =>
        if r.code_hash = codeHash ∧ 0 < u
        then { r with uses_remaining := some (u - 1) }
        else r
      | none => r) }

/-- `dbUpsertVote`: `INSERT ... ON CONFLICT(id) DO UPDATE`, i.e. replace the
row with the conflicting `id` in place, else append. -/
def dbUpsertVote (db : DB) (row : VoteRow) : DB :=
  { db with votes :=
      if db.votes.any (fun r => r.id = row.id)
      then db.votes.map (fun r => if r.id = row.id then row else r)
      else db.votes ++ [row] }

/-- `normalizePreferred` from `worker/src/index.ts`. -/
def normalizePreferred (p : String) : Except String String :=
  let v := strTrim (strToLower p)
  if v = "left" ∨ v = "top" then .ok "left"
  else if v = "right" ∨ v = "bottom" then .ok "right"
  else .error "preferred must be one of: left/right (or top/bottom)"

/-! ### Platform date functions -/

def isLeapYear (y : Int) : Bool := (y % 4 = 0 ∧ y % 100 ≠ 0) ∨ y % 400 = 0

def daysInMonth (y : Int) (m : Nat) : Nat :=
  if m = 1 ∨ m = 3 ∨ m = 5 ∨ m = 7 ∨ m = 8 ∨ m = 10 ∨ m = 12 then 31
  else if m = 4 ∨ m = 6 ∨ m = 9 ∨ m = 11 then 30
  else if isLeapYear y then 29 else 28

/-- Days since 1970-01-01 of a civil date (Hinnant's algorithm). -/
def daysFromCivil (y : Int) (m d : Nat) : Int :=
  let y' : Int := if m ≤ 2 then y - 1 else y
  let era : Int := (if 0 ≤ y' then y' else y' - 399) / 400
  let yoe : Int := y' - era * 400
  let mp : Nat := (m + 9) % 12
  let doy : Int := (153 * mp + 2) / 5 + d - 1
  let doe : Int := yoe * 365 + yoe / 4 - yoe / 100 + doy
  era * 146097 + doe - 719468

/-- Digit value of a character, if a digit. -/
def digitVal (c : Char) : Option Nat :=
  if c.isDigit then some (c.toNat - 48) else none

/-- Epoch milliseconds of validated date-time parts. -/
def dateFromParts (y : Nat) (mo d h mi sec ms : Nat) : Option Int :=
  if 1 ≤ mo ∧ mo ≤ 12 ∧ 1 ≤ d ∧ d ≤ daysInMonth y mo ∧ h < 24 ∧ mi < 60 ∧ sec < 60 then
    some (daysFromCivil y mo d * 86400000 + h * 3600000 + mi * 60000 + sec * 1000 + ms)
  else none

/-- Modelled from the platform: `Date.parse`, restricted to the ISO-8601
profiles `YYYY-MM-DD` and `YYYY-MM-DDTHH:MM:SS(.mmm)?Z` (both read as UTC,
as the ECMAScript date-time string format prescribes); every other string
is NaN (`none`). -/
def dateParse (s : String) : Option Int :=
  match s.data.map digitVal, s.data with
  | [some y1, some y2, some y3, some y4, none, some mo1, some mo2, none,
      some d1, some d2],
    [_, _, _, _, '-', _, _, '-', _, _] =>
    dateFromParts (((y1 * 10 + y2) * 10 + y3) * 10 + y4) (mo1 * 10 + mo2) (d1 * 10 + d2) 0 0 0 0
  | [some y1, some y2, some y3, some y4, none, some mo1, some mo2, none,
      some d1, some d2, none, some h1, some h2, none, some mi1, some mi2, none,
      some s1, some s2, none],
    [_, _, _, _, '-', _, _, '-', _, _, 'T', _, _, ':', _, _, ':', _, _, 'Z'] =>
    dateFromParts (((y1 * 10 + y2) * 10 + y3) * 10 + y4) (mo1 * 10 + mo2) (d1 * 10 + d2)
      (h1 * 10 + h2) (mi1 * 10 + mi2) (s1 * 10 + s2) 0
  | [some y1, some y2, some y3, some y4, none, some mo1, some mo2, none,
      some d1, some d2, none, some h1, some h2, none, some mi1, some mi2, none,
      some s1, some s2, none, some ms1, some ms2, some ms3, none],
    [_, _, _, _, '-', _, _, '-', _, _, 'T', _, _, ':', _, _, ':', _, _, '.', _, _, _, 'Z'] =>
    dateFromParts (((y1 * 10 + y2) * 10 + y3) * 10 + y4) (mo1 * 10 + mo2) (d1 * 10 + d2)
      (h1 * 10 + h2) (mi1 * 10 + mi2) (s1 * 10 + s2) ((ms1 * 10 + ms2) * 10 + ms3)
  | _, _ => none

/-- Civil date from days since the epoch (Hinnant's algorithm). -/
def civilFromDays (z0 : Int) : Int × Nat × Nat :=
  let z := z0 + 719468
  let era : Int := (if 0 ≤ z then z else z - 146096) / 146097
  let doe := z - era * 146097
  let yoe := (doe - doe / 1460 + doe / 36524 - doe / 146096) / 365
  let y := yoe + era * 400
  let doy := doe - (365 * yoe + yoe / 4 - yoe / 100)
  let mp := (5 * doy + 2) / 153
  let d := doy - (153 * mp + 2) / 5 + 1
  let m := if mp < 10 then mp + 3 else mp - 9
  (if m ≤ 2 then y + 1 else y, m.toNat, d.toNat)

/-- Left-pad the decimal form of `n` with zeros to `w` digits. -/
def padNum (w n : Nat) : String :=
  let ds := natToChars n
  String.mk (List.replicate (w - ds.length) '0' ++ ds)

/-- Modelled from the platform: `new Date(now).toISOString()` for the
non-negative epoch-millisecond clock `now`; only ever stored opaquely in
`received_at` / compared as a whole. -/
def toISOString (ms : Nat) : String :=
  let p := civilFromDays ((ms : Int) / 86400000)
  let rem := ms % 86400000
  padNum 4 p.1.toNat ++ "-" ++ padNum 2 p.2.1 ++ "-" ++ padNum 2 p.2.2
    ++ "T" ++ padNum 2 (rem / 3600000) ++ ":" ++ padNum 2 (rem % 3600000 / 60000)
    ++ ":" ++ padNum 2 (rem % 60000 / 1000) ++ "." ++ padNum 3 (rem % 1000) ++ "Z"

/-! ### The fetch handler -/

/-- The trimmed, non-empty entries of the comma-separated `ALLOWED_ORIGINS`
(the `split/map/filter(Boolean)` chain of `originAllowed`). -/
def allowedList (env : Env) : List String :=
  ((splitCh ',' env.ALLOWED_ORIGINS.data).map (fun l => strTrim (String.mk l))).filter
    (fun s => s ≠ "")

/-- `originAllowed` from `worker/src/index.ts`. -/
def originAllowed (env : Env) (origin : String) : Bool :=
  origin ≠ "" && (allowedList env).contains origin

/-- A JSON error response `{error: msg}`. -/
def errResp (status : Nat) (msg : String) : WorkerResponse :=
  ⟨status, Json.obj [("error", Json.str msg)]⟩

/-- `String(x)` on a possibly-undefined value. -/
def jsToStringU (x : Option Json) : String :=
  match x with
  | none => "undefined"
  | some v => jsToString v

/-- `Number(x)` on a possibly-undefined value (`undefined` is NaN). -/
def jsToNumberU (x : Option Json) : Option Int :=
  match x with
  | none => none
  | some v => jsToNumber v

/-- `doc.uses_remaining !== null && doc.uses_remaining <= 0`. -/
def usesDepleted (doc : AccessCodeRow) : Bool :=
  match doc.uses_remaining with
  | some u => u ≤ 0
  | none => false

/-- Truthiness of the `expires_at` column (`if (doc.expires_at)`). -/
def expiresTruthy (doc : AccessCodeRow) : Bool :=
  match doc.expires_at with
  | some e => e ≠ ""
  | none => false

/-- The successful tail of `/api/start`: decrement `uses_remaining` when
present, mint the token with a 12-hour expiry, answer `{ok, token}`. -/
def startIssue (env : Env) (db : DB) (now : Int) (codeHash : String)
    (doc : AccessCodeRow) : WorkerResponse × DB :=
  let db' := if doc.uses_remaining ≠ none then dbDecrementUsesRemaining db codeHash else db
  let token := makeToken env
    (Json.obj [("codeHash", Json.str codeHash), ("exp", Json.num (now + 12 * 60 * 60 * 1000))])
  (⟨200, Json.obj [("ok", Json.bool true), ("token", Json.str token)]⟩, db')

/-- The `POST /api/start` handler body (lines 200-246 of the source). -/
def startHandler (env : Env) (db : DB) (now : Int) (body : Json) :
    Except String (WorkerResponse × DB) := do
  let codeJ ← getProp body "code"
  let code := strTrim (jsToString (jsOr codeJ (Json.str "")))
  if code = "" then
    return (errResp 400 "Missing code", db)
  let codeHash := sha256Hex code
  match dbGetAccessCode db codeHash with
  | none => return (errResp 403 "Invalid code", db)
  | some doc =>
    if doc.active ≠ 1 then
      return (errResp 403 "Code inactive", db)
    if usesDepleted doc then
      return (errResp 403 "Code has no remaining uses", db)
    if expiresTruthy doc then
      match dateParse (doc.expires_at.getD "") with
      | none => return (errResp 500 "Bad expires_at format in DB", db)
      | some expMs =>
        if now > expMs then
          return (errResp 403 "Code expired", db)
        return (startIssue env db now codeHash doc)
    else
      return (startIssue env db now codeHash doc)

/-- The required fields of a vote, in the order the handler checks them. -/
def requiredVoteFields : List String :=
  ["participant_id", "component", "trial_id", "left_method_id", "right_method_id",
   "preferred", "timestamp_utc"]

/-- `vote[k] === undefined || vote[k] === null || vote[k] === ""`. -/
def fieldMissing (v : Option Json) : Bool :=
  match v with
  | none => true
  | some .null => true
  | some (.str s) => s = ""
  | some _ => false

/-- The first required field the check loop rejects. -/
def firstMissingField (vote : Json) : Option String :=
  requiredVoteFields.find? (fun k => fieldMissing (getPropTotal vote k))

/-- Rendering of the trial number into the document id (`${trial}`;
`NaN` prints as "NaN"). -/
def trialToStr (t : Option Int) : String :=
  match t with
  | some n => intToStr n
  | none => "NaN"

/-- The row the `/api/vote` handler builds (lines 278-296 of the source). -/
def mkVoteRow (vote : Json) (preferred : String) (now : Int) : VoteRow :=
  let participant := jsToStringU (getPropTotal vote "participant_id")
  let component := jsToStringU (getPropTotal vote "component")
  let trial := jsToNumberU (getPropTotal vote "trial_id")
  { id := participant ++ "__" ++ component ++ "__" ++ trialToStr trial
    participant_id := participant
    component := component
    trial_id := trial
    left_method_id := jsToStringU (getPropTotal vote "left_method_id")
    right_method_id := jsToStringU (getPropTotal vote "right_method_id")
    preferred := preferred
    timestamp_utc := jsToStringU (getPropTotal vote "timestamp_utc")
    user_agent := jsToString (jsOr (getPropTotal vote "user_agent") (Json.str ""))
    page_url := jsToString (jsOr (getPropTotal vote "page_url") (Json.str ""))
    received_at := toISOString now.toNat }

/-- The `POST /api/vote` handler body (lines 249-299 of the source). -/
def voteHandler (env : Env) (db : DB) (now : Int) (body : Json) :
    Except String (WorkerResponse × DB) := do
  let tokJ ← getProp body "token"
  let voteJ ← getProp body "vote"
  let token := jsToString (jsOr tokJ (Json.str ""))
  if token = "" ∨ ¬ jsTruthyOpt voteJ then
    return (errResp 400 "Missing token or vote", db)
  match verifyToken env now token with
  | .error m => return (errResp 403 (if m = "" then "Invalid token" else m), db)
  | .ok _ =>
    let vote := voteJ.getD Json.null
    match firstMissingField vote with
    | some k => return (errResp 400 ("Missing field: " ++ k), db)
    | none =>
      match normalizePreferred (jsToStringU (getPropTotal vote "preferred")) with
      | .error m => return (errResp 400 m, db)
      | .ok preferred =>
        return (⟨200, Json.obj [("ok", Json.bool true)]⟩,
          dbUpsertVote db (mkVoteRow vote preferred now))

/-- The worker `fetch` entry point (lines 171-304 of the source). An
`Except.error` is an uncaught JavaScript exception escaping the handler. -/
def fetchHandler (env : Env) (db : DB) (now : Int) (req : Req) :
    Except String (WorkerResponse × DB) :=
  if req.method = "OPTIONS" then .ok (⟨204, Json.null⟩, db)
  else if ¬ originAllowed env req.origin then .ok (errResp 403 "Origin not allowed", db)
  else if req.method ≠ "POST" then .ok (errResp 405 "Method not allowed", db)
  else if strEndsWith req.path "/api/start" then startHandler env db now req.body
  else if strEndsWith req.path "/api/vote" then voteHandler env db now req.body
  else .ok (errResp 404 "Not found", db)

/-- The Workers runtime around the handler: an uncaught exception is turned
into a plain 500 whose body is not handler-produced JSON. No database write
precedes either possible throw site, so the state is unchanged. -/
def runtimeFetch (env : Env) (db : DB) (now : Int) (req : Req) : WorkerResponse × DB :=
  match fetchHandler env db now req with
  | .ok r => r
  | .error _ => (⟨500, Json.str "Worker threw exception"⟩, db)

/-! ## The frontend pairing logic (the two App variants) -/

/-- UTF-16 code units of a string (JavaScript `charCodeAt` enumeration). -/
def utf16Units (s : String) : List Nat :=
  (s.data.map (fun c =>
    if c.toNat < 65536 then [c.toNat]
    else [55296 + (c.toNat - 65536) / 1024, 56320 + (c.toNat - 65536) % 1024])).flatten

/-- `Math.imul` on 32-bit patterns. -/
def imul32 (a b : Nat) : Nat := a * b % 4294967296

/-- `hash32` from the App source (FNV-1a over UTF-16 code units, on 32-bit
patterns; the final `>>> 0` is the identity on patterns). -/
def hash32 (s : String) : Nat :=
  (utf16Units s).foldl (fun h c => imul32 (h ^^^ c) 16777619) 2166136261

/-- One call of the closure returned by `mulberry32`: the 32-bit numerator
`r` of the returned float `r / 2^32`, and the updated seed. The seed
accumulator is exact (`Nat`), as JavaScript number addition is below
`2^53` here. -/
def mulberryStep (seed : Nat) : Nat × Nat :=
  let s' := seed + 0x6d2b79f5
  let t0 := s' % 4294967296
  let t1 := imul32 (t0 ^^^ (t0 >>> 15)) (t0 ||| 1)
  let t2 := t1 ^^^ ((t1 + imul32 (t1 ^^^ (t1 >>> 7)) (t1 ||| 61)) % 4294967296)
  (t2 ^^^ (t2 >>> 14), s')

/-- Exchange positions `i` and `j` (the destructuring swap
`[a[i], a[j]] = [a[j], a[i]]`); identity on an out-of-range index, which
the shuffle loop never produces. -/
def listSwap {α : Type} (l : List α) (i j : Nat) : List α :=
  match l[i]?, l[j]? with
  | some a, some b => (l.set i b).set j a
  | _, _ => l

/-- The Fisher-Yates loop of `stableShuffle`: `for (i = len-1; i > 0; i--)`
with `j = Math.floor(rnd() * (i + 1))`, exactly `r * (i+1) / 2^32` since
the float product is exact below `2^53`. -/
def shuffleGo {α : Type} : List α → Nat → Nat → List α
  | a, _, 0 => a
  | a, seed, k + 1 =>
    let p := mulberryStep seed
    let j := p.1 * (k + 2) / 4294967296
    shuffleGo (listSwap a (k + 1) j) p.2 k

/-- `stableShuffle` from the App source: copy, then Fisher-Yates seeded by
`hash32` of the seed string. -/
def stableShuffle {α : Type} (arr : List α) (seedStr : String) : List α :=
  shuffleGo arr (hash32 seedStr) (arr.length - 1)

/-- A row of the locally stored vote history (the fields `nextPair`
reads). `trial_id` is `Option` because the sort comparator guards it with
`?? 0`. -/
structure HRow where
  participant_id : String
  component : String
  trial_id : Option Int
  preferred : String
  left_method_id : String
  right_method_id : String

/-- The sort key `(r.trial_id ?? 0)`. -/
def hKey (r : HRow) : Int := r.trial_id.getD 0

/-- Stable insertion step: place `x` before the first element whose key is
not smaller. -/
def sortInsert (x : HRow) : List HRow → List HRow
  | [] => [x]
  | y :: ys => if hKey y < hKey x then y :: sortInsert x ys else x :: y :: ys

/-- Model of the stable ascending `Array.prototype.sort` with comparator
`(a, b) => (a.trial_id ?? 0) - (b.trial_id ?? 0)` (ECMAScript sort is
stable; a stable sort by a fixed key is unique, so insertion sort is an
exact model). -/
def sortByTrial : List HRow → List HRow
  | [] => []
  | x :: xs => sortInsert x (sortByTrial xs)

/-- Append if absent: the growth step of the JavaScript `Set` (insertion
ordered, duplicates ignored). -/
def addUnique (l : List String) (x : String) : List String :=
  if x ∈ l then l else l ++ [x]

/-- The `appeared` set of `nextPair`: every left/right method id of the
rows, in first-appearance order. Its length is the `Set.size`. -/
def appearedOf (rows : List HRow) : List String :=
  rows.foldl (fun acc r => addUnique (addUnique acc r.left_method_id) r.right_method_id) []

namespace AppV1

/-- `nextPair` from the main App variant (`src/unnamed/part_001`,
lines 79-106). -/
def nextPair (pid component : String) (methodIds : List String)
    (history : List HRow) : Option (String × String) :=
  if pid = "" ∨ methodIds.length < 2 then none
  else
    let rows := sortByTrial (history.filter
      (fun r => r.participant_id = pid ∧ r.component = component))
    match rows.getLast? with
    | none =>
      let shuffled := stableShuffle methodIds (pid ++ "::" ++ component)
      some (shuffled.getD 0 "", shuffled.getD 1 "")
    | some last =>
      let champion :=
        if last.preferred = "left" then last.left_method_id else last.right_method_id
      let appeared := appearedOf rows
      let unseen := methodIds.filter (fun m => m ∉ appeared ∧ m ≠ champion)
      if unseen = [] then none
      else
        let r := (mulberryStep (hash32 (pid ++ "::" ++ component ++ "::"
            ++ String.mk (natToChars appeared.length)))).1
        some (champion, unseen.getD (r * unseen.length / 4294967296) "")

end AppV1

namespace AppV0

/-- `nextPair` from the simpler App variant (`src/unnamed/part_000`,
lines 27-44). -/
def nextPair (pid component : String) (methodIds : List String)
    (history : List HRow) : Option (String × String) :=
  if methodIds.length < 2 then none
  else
    let rows := history.filter
      (fun r => r.participant_id = pid ∧ r.component = component)
    match rows.getLast? with
    | none => some (methodIds.getD 0 "", methodIds.getD 1 "")
    | some last =>
      let champion :=
        if last.preferred = "left" then last.left_method_id else last.right_method_id
      let appeared := appearedOf rows
      let unseen := methodIds.filter (fun m => m ∉ appeared ∧ m ≠ champion)
      if unseen = [] then none
      else some (champion, unseen.getD (rows.length % unseen.length) "")

end AppV0

/-! ## Token lemmas -/

/-! ## Permutation lemmas for the shuffle -/

/-! ## Vote upsert lemmas -/

/-! ## The uses_remaining invariant -/

/-- The implicit invariant of C9: a non-null `uses_remaining` is never
negative. -/
def usesInv (db : DB) : Prop :=
  ∀ r ∈ db.access_codes, 0 ≤ r.uses_remaining.getD 0

instance (db : DB) : Decidable (usesInv db) := by
  unfold usesInv
  infer_instance

/-! ## Handler restatements without monadic notation -/

/-- `startHandler` with the `Except` binds spelled out, for case analysis. -/
def startHandlerX (env : Env) (db : DB) (now : Int) (body : Json) :
    Except String (WorkerResponse × DB) :=
  match getProp body "code" with
  | .error m => .error m
  | .ok codeJ =>
    if strTrim (jsToString (jsOr codeJ (Json.str ""))) = ""
    then .ok (errResp 400 "Missing code", db)
    else
      match dbGetAccessCode db (sha256Hex (strTrim (jsToString (jsOr codeJ (Json.str ""))))) with
      | none => .ok (errResp 403 "Invalid code", db)
      | some doc =>
        if doc.active ≠ 1 then .ok (errResp 403 "Code inactive", db)
        else if usesDepleted doc then .ok (errResp 403 "Code has no remaining uses", db)
        else if expiresTruthy doc then
          match dateParse (doc.expires_at.getD "") with
          | none => .ok (errResp 500 "Bad expires_at format in DB", db)
          | some expMs =>
            if now > expMs then .ok (errResp 403 "Code expired", db)
            else .ok (startIssue env db now
              (sha256Hex (strTrim (jsToString (jsOr codeJ (Json.str ""))))) doc)
        else .ok (startIssue env db now
          (sha256Hex (strTrim (jsToString (jsOr codeJ (Json.str ""))))) doc)

/-- `voteHandler` with the `Except` binds spelled out, for case analysis. -/
def voteHandlerX (env : Env) (db : DB) (now : Int) (body : Json) :
    Except String (WorkerResponse × DB) :=
  match getProp body "token" with
  | .error m => .error m
  | .ok tokJ =>
    match getProp body "vote" with
    | .error m => .error m
    | .ok voteJ =>
      if jsToString (jsOr tokJ (Json.str "")) = "" ∨ ¬ jsTruthyOpt voteJ
      then .ok (errResp 400 "Missing token or vote", db)
      else
        match verifyToken env now (jsToString (jsOr tokJ (Json.str ""))) with
        | .error m => .ok (errResp 403 (if m = "" then "Invalid token" else m), db)
        | .ok _ =>
          match firstMissingField (voteJ.getD Json.null) with
          | some k => .ok (errResp 400 ("Missing field: " ++ k), db)
          | none =>
            match normalizePreferred
                (jsToStringU (getPropTotal (voteJ.getD Json.null) "preferred")) with
            | .error m => .ok (errResp 400 m, db)
            | .ok preferred =>
              .ok (⟨200, Json.obj [("ok", Json.bool true)]⟩,
                dbUpsertVote db (mkVoteRow (voteJ.getD Json.null) preferred now))

/-- The runtime's handling of the handler result, as a function. -/
def respOf (x : Except String (WorkerResponse × DB)) (db : DB) : WorkerResponse × DB :=
  match x with
  | .ok r => r
  | .error _ => (⟨500, Json.str "Worker threw exception"⟩, db)

/-! ## The start gate condition -/

/-- The gate condition C1 actually states: trimmed code non-empty, matching
row, `active = 1`, uses null or positive, and `expires_at` absent or parsing
to a time not earlier than `now`. -/
def startOkCondClaimed (db : DB) (now : Int) (body : Json) : Bool :=
  strTrim (jsToString (jsOr (getPropTotal body "code") (Json.str ""))) ≠ "" &&
    match dbGetAccessCode db
        (sha256Hex (strTrim (jsToString (jsOr (getPropTotal body "code") (Json.str ""))))) with
    | none => false
    | some doc =>
      (doc.active = 1)
      && (doc.uses_remaining = none || 0 < doc.uses_remaining.getD 0)
      && (doc.expires_at = none
          || match dateParse (doc.expires_at.getD "") with
             | none => false
             | some ms => now ≤ ms)

/-- The amended gate condition: the handler also lets an **empty**
`expires_at` string through, because the truthiness guard skips the expiry
check on `""`. -/
def startOkCond (db : DB) (now : Int) (body : Json) : Bool :=
  strTrim (jsToString (jsOr (getPropTotal body "code") (Json.str ""))) ≠ "" &&
    match dbGetAccessCode db
        (sha256Hex (strTrim (jsToString (jsOr (getPropTotal body "code") (Json.str ""))))) with
    | none => false
    | some doc =>
      (doc.active = 1)
      && (doc.uses_remaining = none || 0 < doc.uses_remaining.getD 0)
      && (doc.expires_at = none || doc.expires_at = some ""
          || match dateParse (doc.expires_at.getD "") with
             | none => false
             | some ms => now ≤ ms)

/-! ## Handler case catalogues -/

/-! ## Request sequences -/

/-- Run a list of timestamped requests against the worker, threading the
database state. -/
def runSeq (env : Env) : DB → List (Int × Req) → DB
  | db, [] => db
  | db, (now, req) :: rest => runSeq env (runtimeFetch env db now req).2 rest

/-! ## The start gate: status characterization -/

/-- The `/api/start` tail once the access-code row has been found. -/
def startDocE (env : Env) (db : DB) (now : Int) (ch : String) (doc : AccessCodeRow) :
    Except String (WorkerResponse × DB) :=
  if doc.active ≠ 1 then .ok (errResp 403 "Code inactive", db)
  else if usesDepleted doc then .ok (errResp 403 "Code has no remaining uses", db)
  else if expiresTruthy doc then
    match dateParse (doc.expires_at.getD "") with
    | none => .ok (errResp 500 "Bad expires_at format in DB", db)
    | some expMs =>
      if now > expMs then .ok (errResp 403 "Code expired", db)
      else .ok (startIssue env db now ch doc)
  else .ok (startIssue env db now ch doc)

/-- The per-row part of the (amended) gate condition. -/
def docCond (now : Int) (doc : AccessCodeRow) : Bool :=
  (doc.active = 1)
  && (doc.uses_remaining = none || 0 < doc.uses_remaining.getD 0)
  && (doc.expires_at = none || doc.expires_at = some ""
      || match dateParse (doc.expires_at.getD "") with
         | none => false
         | some ms => now ≤ ms)

/-- The `/api/start` body once the property read on the request body has
succeeded (every non-null body). -/
def startCoreE (env : Env) (db : DB) (now : Int) (codeJ : Option Json) :
    Except String (WorkerResponse × DB) :=
  if strTrim (jsToString (jsOr codeJ (Json.str ""))) = ""
  then .ok (errResp 400 "Missing code", db)
  else
    match dbGetAccessCode db (sha256Hex (strTrim (jsToString (jsOr codeJ (Json.str ""))))) with
    | none => .ok (errResp 403 "Invalid code", db)
    | some doc =>
      startDocE env db now (sha256Hex (strTrim (jsToString (jsOr codeJ (Json.str ""))))) doc

/-! ## Sorting and pairing lemmas -/

/-- The row the stable sort puts last: the latest-trial row, later rows
winning ties — the "most recent vote" of the claim. -/
def lastMaxByTrial : List HRow → Option HRow
  | [] => none
  | x :: xs =>
    match lastMaxByTrial xs with
    | none => some x
    | some y => if hKey y < hKey x then some x else some y

/-- The body of `AppV1.nextPair` after the guard, on the sorted filtered
rows, with the local constants inlined. -/
def nextPairCore (pid component : String) (methodIds : List String)
    (rows : List HRow) : Option (String × String) :=
  match rows.getLast? with
  | none =>
    some ((stableShuffle methodIds (pid ++ "::" ++ component)).getD 0 "",
          (stableShuffle methodIds (pid ++ "::" ++ component)).getD 1 "")
  | some last =>
    if methodIds.filter (fun m => m ∉ appearedOf rows
        ∧ m ≠ (if last.preferred = "left" then last.left_method_id else last.right_method_id)) = []
    then none
    else some
      ((if last.preferred = "left" then last.left_method_id else last.right_method_id),
       (methodIds.filter (fun m => m ∉ appearedOf rows
          ∧ m ≠ (if last.preferred = "left" then last.left_method_id else last.right_method_id))).getD
         ((mulberryStep (hash32 (pid ++ "::" ++ component ++ "::"
             ++ String.mk (natToChars (appearedOf rows).length)))).1
           * (methodIds.filter (fun m => m ∉ appearedOf rows
              ∧ m ≠ (if last.preferred = "left" then last.left_method_id else last.right_method_id))).length
           / 4294967296) "")

/-- The body of `AppV0.nextPair` after the guard, on the unsorted filtered
rows. -/
def nextPairCore0 (methodIds : List String) (rows : List HRow) :
    Option (String × String) :=
  match rows.getLast? with
  | none => some (methodIds.getD 0 "", methodIds.getD 1 "")
  | some last =>
    if methodIds.filter (fun m => m ∉ appearedOf rows
        ∧ m ≠ (if last.preferred = "left" then last.left_method_id else last.right_method_id)) = []
    then none
    else some
      ((if last.preferred = "left" then last.left_method_id else last.right_method_id),
       (methodIds.filter (fun m => m ∉ appearedOf rows
          ∧ m ≠ (if last.preferred = "left" then last.left_method_id else last.right_method_id))).getD
         (rows.length
           % (methodIds.filter (fun m => m ∉ appearedOf rows
              ∧ m ≠ (if last.preferred = "left" then last.left_method_id else last.right_method_id))).length) "")

/-! ## The vote path -/

/-- `voteHandler` after both property reads have succeeded. -/
def voteCoreE (env : Env) (db : DB) (now : Int) (tokJ voteJ : Option Json) :
    Except String (WorkerResponse × DB) :=
  if jsToString (jsOr tokJ (Json.str "")) = "" ∨ ¬ jsTruthyOpt voteJ
  then .ok (errResp 400 "Missing token or vote", db)
  else
    match verifyToken env now (jsToString (jsOr tokJ (Json.str ""))) with
    | .error m => .ok (errResp 403 (if m = "" then "Invalid token" else m), db)
    | .ok _ =>
      match firstMissingField (voteJ.getD Json.null) with
      | some k => .ok (errResp 400 ("Missing field: " ++ k), db)
      | none =>
        match normalizePreferred
            (jsToStringU (getPropTotal (voteJ.getD Json.null) "preferred")) with
        | .error m => .ok (errResp 400 m, db)
        | .ok preferred =>
          .ok (⟨200, Json.obj [("ok", Json.bool true)]⟩,
            dbUpsertVote db (mkVoteRow (voteJ.getD Json.null) preferred now))

/-! ## Routing -/

/-! ## Concrete instances used by the claim witnesses -/

def wEnv : Env := ⟨"test-secret", "https://site.example"⟩

def wEnvNoOrig : Env := ⟨"test-secret", ""⟩

def wDb : DB := ⟨[⟨sha256Hex "abc", 1, some 5, none⟩], []⟩

def wDbEmptyExp : DB := ⟨[⟨sha256Hex "abc", 1, some 5, some ""⟩], []⟩

def wStartReq : Req :=
  ⟨"POST", "https://site.example", "/api/start", Json.obj [("code", Json.str "abc")]⟩

def wBadReq : Req := ⟨"POST", "", "/api/start", Json.null⟩

def wP3 : Json := Json.obj [("exp", Json.num 5)]

def wVoteReq : Req :=
  ⟨"POST", "https://site.example", "/api/vote",
   Json.obj [("token", Json.str (b64Json wP3 ++ "." ++ hmacSign wEnv.TOKEN_SECRET (b64Json wP3))),
             ("vote", Json.obj [("participant_id", Json.str "P1")])]⟩

def wVoteRow : VoteRow :=
  ⟨"P1__cs__1", "P1", "cs", some 1, "m1", "m2", "left", "t", "", "", "r"⟩

def wDbVotes : DB := ⟨[], [wVoteRow]⟩

def wHRow : HRow := ⟨"P1", "cs", some 1, "left", "m1", "m2"⟩

def wMethods : List String := ["m1", "m2", "m3"]

def wHistory : List HRow := [wHRow]

def wHistory2 : List HRow := [wHRow, ⟨"P2", "cs", some 1, "left", "m1", "m2"⟩]

/-! ## The claims -/

/-! ## Theorems -/

theorem digitCh_isDigit (d : Nat) (h : d < 10) : (digitCh d).isDigit = true := by
  interval_cases d <;> decide

theorem digitCh_toNat (d : Nat) (h : d < 10) : (digitCh d).toNat = 48 + d := by
  interval_cases d <;> decide

theorem natToCharsFuel_all_digits (fuel : Nat) :
    ∀ n, ∀ c ∈ natToCharsFuel fuel n, c.isDigit = true := by
  induction fuel with
  | zero => intro n c hc; simp [natToCharsFuel] at hc
  | succ fuel ih =>
    intro n c hc
    rw [natToCharsFuel] at hc
    split at hc
    · rw [List.mem_singleton] at hc
      subst hc
      exact digitCh_isDigit n (by omega)
    · rcases List.mem_append.1 hc with h | h
      · exact ih (n / 10) c h
      · rw [List.mem_singleton] at h
        subst h
        exact digitCh_isDigit (n % 10) (Nat.mod_lt _ (by omega))

theorem natToChars_all_digits (n : Nat) : ∀ c ∈ natToChars n, c.isDigit = true :=
  natToCharsFuel_all_digits (n + 1) n

theorem natToChars_ne_nil (n : Nat) : natToChars n ≠ [] := by
  rw [natToChars, natToCharsFuel]
  split
  · simp
  · simp

theorem digitsVal_append_single (l : List Char) (c : Char) :
    digitsVal (l ++ [c]) = digitsVal l * 10 + (c.toNat - 48) := by
  simp [digitsVal, List.foldl_append]

theorem digitsVal_natToCharsFuel (fuel : Nat) :
    ∀ n, n < fuel → digitsVal (natToCharsFuel fuel n) = n := by
  induction fuel with
  | zero => omega
  | succ fuel ih =>
    intro n hn
    rw [natToCharsFuel]
    split
    · rename_i h
      simp [digitsVal, digitCh_toNat n h]
    · rename_i h
      rw [digitsVal_append_single, ih (n / 10) (by omega),
        digitCh_toNat (n % 10) (Nat.mod_lt _ (by omega))]
      omega

theorem digitsVal_natToChars (n : Nat) : digitsVal (natToChars n) = n :=
  digitsVal_natToCharsFuel (n + 1) n (by omega)

theorem takeDigits_append (ds rest : List Char) (hds : ∀ c ∈ ds, c.isDigit = true)
    (hrest : delimOk rest) : takeDigits (ds ++ rest) = (ds, rest) := by
  unfold takeDigits
  induction ds with
  | nil =>
    simp only [List.nil_append]
    cases rest with
    | nil => rfl
    | cons c t =>
      simp only [delimOk] at hrest
      simp [List.takeWhile, List.dropWhile, hrest]
  | cons c t iht =>
    have hc : c.isDigit = true := hds c (by simp)
    have ht := iht (fun x hx => hds x (by simp [hx]))
    simp only [List.cons_append, List.takeWhile, List.dropWhile, hc, List.append_eq]
    simp only [Prod.mk.injEq] at ht ⊢
    exact ⟨by rw [ht.1], ht.2⟩

theorem parseNat_spec (n : Nat) (rest : List Char) (hrest : delimOk rest) :
    parseNat (natToChars n ++ rest) = some (n, rest) := by
  unfold parseNat
  rw [takeDigits_append _ _ (natToChars_all_digits n) hrest]
  simp [natToChars_ne_nil n, digitsVal_natToChars]

theorem hexVal_hexCh (d : Nat) (h : d < 16) : hexVal (hexCh d) = some d := by
  interval_cases d <;> decide

theorem parseStrBody_escape (l : List Char) (rest : List Char) :
    parseStrBody (escapeChars l ++ '"' :: rest) = some (l, rest) := by
  induction l with
  | nil =>
    show parseStrBody ('"' :: rest) = some ([], rest)
    rw [parseStrBody.eq_def]
    simp [Char.reduceEq]
  | cons c t ih =>
    have hstep : escapeChars (c :: t) = escapeChar c ++ escapeChars t := by
      simp [escapeChars]
    rw [hstep, List.append_assoc]
    unfold escapeChar
    split_ifs with h1 h2 h3 h4 h5 h6 h7 h8
    · subst h1; rw [List.cons_append, List.cons_append, List.nil_append, parseStrBody.eq_def]
      simp [escDecode, ih, Char.reduceEq]
    · subst h2; rw [List.cons_append, List.cons_append, List.nil_append, parseStrBody.eq_def]
      simp [escDecode, ih, Char.reduceEq]
    · subst h3; rw [List.cons_append, List.cons_append, List.nil_append, parseStrBody.eq_def]
      simp [escDecode, ih, Char.reduceEq]
    · subst h4; rw [List.cons_append, List.cons_append, List.nil_append, parseStrBody.eq_def]
      simp [escDecode, ih, Char.reduceEq]
    · subst h5; rw [List.cons_append, List.cons_append, List.nil_append, parseStrBody.eq_def]
      simp [escDecode, ih, Char.reduceEq]
    · subst h6; rw [List.cons_append, List.cons_append, List.nil_append, parseStrBody.eq_def]
      simp [escDecode, ih, Char.reduceEq]
    · subst h7; rw [List.cons_append, List.cons_append, List.nil_append, parseStrBody.eq_def]
      simp [escDecode, ih, Char.reduceEq]
    · rw [show ('\\' :: 'u' :: '0' :: '0' :: hexCh (c.toNat / 16) ::
          hexCh (c.toNat % 16) :: []) ++ (escapeChars t ++ '"' :: rest)
          = '\\' :: 'u' :: '0' :: '0' :: hexCh (c.toNat / 16) ::
            hexCh (c.toNat % 16) :: (escapeChars t ++ '"' :: rest) from rfl,
        parseStrBody.eq_def]
      simp only [Char.reduceEq, if_false, if_true, reduceIte]
      rw [show hexVal '0' = some 0 from rfl,
        hexVal_hexCh (c.toNat / 16) (by omega), hexVal_hexCh (c.toNat % 16) (by omega)]
      have harith : ((0 * 16 + 0) * 16 + c.toNat / 16) * 16 + c.toNat % 16 = c.toNat := by
        omega
      simp only [harith, Char.ofNat_toNat, ih, Option.map_some']
    · rw [List.cons_append, List.nil_append, parseStrBody.eq_def]
      simp only [if_neg h1, if_neg h2, if_neg h8, ih, Option.map_some']

theorem strMk_data (s : String) : String.mk s.data = s := rfl

theorem isDigit_ne (c : Char) (h : c.isDigit = true) :
    c ≠ 'n' ∧ c ≠ 't' ∧ c ≠ 'f' ∧ c ≠ '"' ∧ c ≠ '-' ∧ c ≠ '[' ∧ c ≠ '{' ∧
      c ≠ ']' ∧ c ≠ '}' ∧ c ≠ ',' ∧ c ≠ ':' := by
  refine ⟨?_, ?_, ?_, ?_, ?_, ?_, ?_, ?_, ?_, ?_, ?_⟩ <;>
    (rintro rfl; exact absurd h (by decide))

/-- Dispatch of `parseVal` on a digit head character. -/
theorem parseVal_digit_head (fuel : Nat) (c : Char) (rest : List Char)
    (h : c.isDigit = true) :
    parseVal (fuel + 1) (c :: rest)
      = (parseNat (c :: rest)).map (fun p => (Json.num (p.1 : Int), p.2)) := by
  obtain ⟨h1, h2, h3, h4, h5, h6, h7, -⟩ := isDigit_ne c h
  rw [parseVal.eq_def]
  simp only [if_neg h1, if_neg h2, if_neg h3, if_neg h4, if_neg h5, if_neg h6, if_neg h7,
    if_pos h]

/-- Every serialised JSON value starts with a character that is not a
closing bracket, separator, or colon. -/
theorem stringify_head (v : Json) :
    ∃ c cs, stringifyChars v = c :: cs ∧ c ≠ ']' ∧ c ≠ '}' ∧ c ≠ ',' ∧ c ≠ ':' := by
  cases v with
  | null => exact ⟨'n', _, rfl, by decide, by decide, by decide, by decide⟩
  | bool b =>
    cases b with
    | true => exact ⟨'t', _, rfl, by decide, by decide, by decide, by decide⟩
    | false => exact ⟨'f', _, rfl, by decide, by decide, by decide, by decide⟩
  | num n =>
    show ∃ c cs, intToChars n = c :: cs ∧ _
    rw [intToChars]
    split
    · exact ⟨'-', _, rfl, by decide, by decide, by decide, by decide⟩
    · obtain ⟨d, ds, hds⟩ : ∃ d ds, natToChars n.toNat = d :: ds := by
        cases h : natToChars n.toNat with
        | nil => exact absurd h (natToChars_ne_nil _)
        | cons d ds => exact ⟨d, ds, rfl⟩
      have hd : d.isDigit = true := natToChars_all_digits n.toNat d (by rw [hds]; simp)
      obtain ⟨-, -, -, -, -, -, -, g1, g2, g3, g4⟩ := isDigit_ne d hd
      exact ⟨d, ds, hds, g1, g2, g3, g4⟩
  | str s => exact ⟨'"', _, rfl, by decide, by decide, by decide, by decide⟩
  | arr xs =>
    cases xs with
    | nil => exact ⟨'[', _, rfl, by decide, by decide, by decide, by decide⟩
    | cons x xs =>
      have h : stringifyChars (.arr (x :: xs))
          = '[' :: ((stringifyChars x ++ stringifyArrRest xs) ++ [']']) := by
        rw [stringifyChars]
        simp [List.append_assoc]
      exact ⟨'[', _, h, by decide, by decide, by decide, by decide⟩
  | obj fs =>
    cases fs with
    | nil => exact ⟨'{', _, rfl, by decide, by decide, by decide, by decide⟩
    | cons f fs =>
      have h : stringifyChars (.obj (f :: fs))
          = '{' :: ((stringifyField f ++ stringifyObjRest fs) ++ ['}']) := by
        rw [stringifyChars]
        simp [List.append_assoc]
      exact ⟨'{', _, h, by decide, by decide, by decide, by decide⟩

theorem jfuel_pos (v : Json) : 1 ≤ jfuel v := by
  cases v <;> simp [jfuel]

theorem afuel_pos (xs : List Json) : 1 ≤ afuel xs := by
  cases xs <;> simp [afuel]

theorem ofuel_pos (fs : List (String × Json)) : 1 ≤ ofuel fs := by
  cases fs <;> simp [ofuel]

/-- `stringifyChars` output never begins with `]` (resp. `}`), so the
empty-array (empty-object) test in `parseVal` does not fire on it. -/
theorem stringify_head_ne_close (x : Json) (X : List Char) :
    ¬ (stringifyChars x ++ X).head? = some ']'
      ∧ ¬ (stringifyChars x ++ X).head? = some '}' := by
  obtain ⟨c, cs, hc, h1, h2, _, _⟩ := stringify_head x
  rw [hc]
  exact ⟨by simp [h1], by simp [h2]⟩

theorem parse_stringify_main (fuel : Nat) :
    (∀ v rest, jfuel v ≤ fuel → delimOk rest →
      parseVal fuel (stringifyChars v ++ rest) = some (v, rest)) ∧
    (∀ x xs rest, afuel (x :: xs) ≤ fuel →
      parseArrElems fuel (stringifyChars x ++ (stringifyArrRest xs ++ ']' :: rest))
        = some (x :: xs, rest)) ∧
    (∀ k v fs rest, ofuel ((k, v) :: fs) ≤ fuel →
      parseObjFields fuel (stringifyField (k, v) ++ (stringifyObjRest fs ++ '}' :: rest))
        = some ((k, v) :: fs, rest)) := by
  induction fuel using Nat.strong_induction_on with
  | _ fuel ih =>
    match fuel with
    | 0 =>
      refine ⟨fun v rest hf _ => absurd hf (by have := jfuel_pos v; omega),
        fun x xs rest hf => absurd hf (by have := afuel_pos (x :: xs); omega),
        fun k v fs rest hf => absurd hf (by have := ofuel_pos ((k, v) :: fs); omega)⟩
    | g + 1 =>
      have ihg := ih g (by omega)
      refine ⟨?_, ?_, ?_⟩
      · intro v rest hf hrest
        cases v with
        | null =>
          have h : stringifyChars Json.null ++ rest = 'n' :: 'u' :: 'l' :: 'l' :: rest := by
            simp [stringifyChars]
          rw [h, parseVal.eq_def]
          simp [Char.reduceEq]
        | bool b =>
          cases b with
          | true =>
            have h : stringifyChars (Json.bool true) ++ rest
                = 't' :: 'r' :: 'u' :: 'e' :: rest := by simp [stringifyChars]
            rw [h, parseVal.eq_def]
            simp [Char.reduceEq]
          | false =>
            have h : stringifyChars (Json.bool false) ++ rest
                = 'f' :: 'a' :: 'l' :: 's' :: 'e' :: rest := by simp [stringifyChars]
            rw [h, parseVal.eq_def]
            simp [Char.reduceEq]
        | num n =>
          by_cases hn : n < 0
          · have h : stringifyChars (Json.num n) ++ rest
                = '-' :: (natToChars (-n).toNat ++ rest) := by
              simp [stringifyChars, intToChars, if_pos hn]
            rw [h, parseVal.eq_def]
            simp only [Char.reduceEq, reduceIte]
            rw [parseNat_spec _ _ hrest]
            have hcast : (((-n).toNat : Int)) = -n := Int.toNat_of_nonneg (by omega)
            simp [hcast]
          · obtain ⟨d, ds, hds⟩ : ∃ d ds, natToChars n.toNat = d :: ds := by
              cases h : natToChars n.toNat with
              | nil => exact absurd h (natToChars_ne_nil _)
              | cons d ds => exact ⟨d, ds, rfl⟩
            have hd : d.isDigit = true :=
              natToChars_all_digits n.toNat d (by rw [hds]; simp)
            have h : stringifyChars (Json.num n) ++ rest = d :: (ds ++ rest) := by
              simp [stringifyChars, intToChars, if_neg hn, hds]
            rw [h, parseVal_digit_head g d _ hd]
            have h2 : d :: (ds ++ rest) = natToChars n.toNat ++ rest := by rw [hds]; simp
            rw [h2, parseNat_spec _ _ hrest]
            have hcast : ((n.toNat : Int)) = n := Int.toNat_of_nonneg (by omega)
            simp [hcast]
        | str s =>
          have h : stringifyChars (Json.str s) ++ rest
              = '"' :: (escapeChars s.data ++ '"' :: rest) := by
            simp [stringifyChars, quoteChars]
          rw [h, parseVal.eq_def]
          simp only [Char.reduceEq, reduceIte]
          rw [parseStrBody_escape]
          simp [strMk_data]
        | arr xs =>
          cases xs with
          | nil =>
            have h : stringifyChars (Json.arr []) ++ rest = '[' :: ']' :: rest := by
              simp [stringifyChars]
            rw [h, parseVal.eq_def]
            simp [Char.reduceEq]
          | cons x xs =>
            have h : stringifyChars (Json.arr (x :: xs)) ++ rest
                = '[' :: (stringifyChars x ++ (stringifyArrRest xs ++ ']' :: rest)) := by
              simp [stringifyChars, List.append_assoc]
            rw [h, parseVal.eq_def]
            simp only [Char.reduceEq, reduceIte]
            rw [if_neg (stringify_head_ne_close x _).1]
            have hb : afuel (x :: xs) ≤ g := by
              simp only [jfuel] at hf
              omega
            rw [ihg.2.1 x xs rest hb]
            rfl
        | obj fs =>
          cases fs with
          | nil =>
            have h : stringifyChars (Json.obj []) ++ rest = '{' :: '}' :: rest := by
              simp [stringifyChars]
            rw [h, parseVal.eq_def]
            simp [Char.reduceEq]
          | cons f fs =>
            obtain ⟨k, v⟩ := f
            have h : stringifyChars (Json.obj ((k, v) :: fs)) ++ rest
                = '{' :: (stringifyField (k, v) ++ (stringifyObjRest fs ++ '}' :: rest)) := by
              simp [stringifyChars, List.append_assoc]
            rw [h, parseVal.eq_def]
            simp only [Char.reduceEq, reduceIte]
            have hq : (stringifyField (k, v) ++ (stringifyObjRest fs ++ '}' :: rest)).head?
                = some '"' := by
              simp [stringifyField, quoteChars]
            rw [if_neg (by rw [hq]; simp)]
            have hb : ofuel ((k, v) :: fs) ≤ g := by
              simp only [jfuel] at hf
              omega
            rw [ihg.2.2 k v fs rest hb]
            rfl
      · intro x xs rest hf
        simp only [afuel] at hf
        have hx : jfuel x ≤ g := by
          have := Nat.le_max_left (jfuel x) (afuel xs)
          omega
        rw [parseArrElems.eq_2]
        have hdel : delimOk (stringifyArrRest xs ++ ']' :: rest) := by
          cases xs with
          | nil => simp [stringifyArrRest, delimOk]
          | cons y ys => simp [stringifyArrRest, delimOk]
        rw [ihg.1 x (stringifyArrRest xs ++ ']' :: rest) hx hdel]
        show (match stringifyArrRest xs ++ ']' :: rest with
            | ']' :: r => some ([x], r)
            | ',' :: r => (parseArrElems g r).map (fun p => (x :: p.1, p.2))
            | _ => none) = some (x :: xs, rest)
        cases xs with
        | nil =>
          simp [stringifyArrRest]
        | cons y ys =>
          have hys : afuel (y :: ys) ≤ g := by
            have := Nat.le_max_right (jfuel x) (afuel (y :: ys))
            omega
          have hshape : stringifyArrRest (y :: ys) ++ ']' :: rest
              = ',' :: (stringifyChars y ++ (stringifyArrRest ys ++ ']' :: rest)) := by
            simp [stringifyArrRest, List.append_assoc]
          rw [hshape]
          show (parseArrElems g (stringifyChars y ++ (stringifyArrRest ys ++ ']' :: rest))).map
              (fun p => (x :: p.1, p.2)) = some (x :: y :: ys, rest)
          rw [ihg.2.1 y ys rest hys]
          rfl
      · intro k v fs rest hf
        simp only [ofuel] at hf
        have hv : jfuel v ≤ g := by
          have := Nat.le_max_left (jfuel v) (ofuel fs)
          omega
        have hshape : stringifyField (k, v) ++ (stringifyObjRest fs ++ '}' :: rest)
            = '"' :: (escapeChars k.data
                ++ '"' :: (':' :: (stringifyChars v ++ (stringifyObjRest fs ++ '}' :: rest)))) := by
          simp [stringifyField, quoteChars, List.append_assoc]
        rw [hshape, parseObjFields.eq_2, parseStrBody_escape]
        have hdel : delimOk (stringifyObjRest fs ++ '}' :: rest) := by
          cases fs with
          | nil => simp [stringifyObjRest, delimOk]
          | cons f' fs' => simp [stringifyObjRest, delimOk]
        show (match parseVal g (stringifyChars v ++ (stringifyObjRest fs ++ '}' :: rest)) with
            | none => none
            | some (v', rest'') =>
              match rest'' with
              | '}' :: r => some ([(String.mk k.data, v')], r)
              | ',' :: r =>
                (parseObjFields g r).map (fun p => ((String.mk k.data, v') :: p.1, p.2))
              | _ => none) = some ((k, v) :: fs, rest)
        rw [ihg.1 v (stringifyObjRest fs ++ '}' :: rest) hv hdel]
        show (match stringifyObjRest fs ++ '}' :: rest with
            | '}' :: r => some ([(String.mk k.data, v)], r)
            | ',' :: r =>
              (parseObjFields g r).map (fun p => ((String.mk k.data, v) :: p.1, p.2))
            | _ => none) = some ((k, v) :: fs, rest)
        cases fs with
        | nil =>
          simp [stringifyObjRest, strMk_data]
        | cons f' fs' =>
          obtain ⟨k', v'⟩ := f'
          have hfs : ofuel ((k', v') :: fs') ≤ g := by
            have := Nat.le_max_right (jfuel v) (ofuel ((k', v') :: fs'))
            omega
          have hshape2 : stringifyObjRest ((k', v') :: fs') ++ '}' :: rest
              = ',' :: (stringifyField (k', v') ++ (stringifyObjRest fs' ++ '}' :: rest)) := by
            simp [stringifyObjRest, List.append_assoc]
          rw [hshape2]
          show (parseObjFields g
              (stringifyField (k', v') ++ (stringifyObjRest fs' ++ '}' :: rest))).map
              (fun p => ((String.mk k.data, v) :: p.1, p.2)) = some ((k, v) :: (k', v') :: fs', rest)
          rw [ihg.2.2 k' v' fs' rest hfs]
          simp [strMk_data]

mutual

theorem jfuel_le_len (v : Json) : jfuel v ≤ (stringifyChars v).length + 1 := by
  cases v with
  | null => simp [jfuel, stringifyChars]
  | bool b => cases b <;> simp [jfuel, stringifyChars]
  | num n => simp [jfuel]
  | str s => simp [jfuel]
  | arr xs =>
    cases xs with
    | nil => simp [jfuel, afuel, stringifyChars]
    | cons x xs =>
      have h := afuel_le_len x xs
      simp only [jfuel, stringifyChars, List.length_cons, List.length_append,
        List.length_singleton] at h ⊢
      omega
  | obj fs =>
    cases fs with
    | nil => simp [jfuel, ofuel, stringifyChars]
    | cons f fs =>
      obtain ⟨k, v⟩ := f
      have h := ofuel_le_len k v fs
      simp only [jfuel, stringifyChars, List.length_cons, List.length_append,
        List.length_singleton] at h ⊢
      omega
termination_by sizeOf v
decreasing_by
  all_goals simp
  all_goals omega

theorem afuel_le_len (x : Json) (xs : List Json) :
    afuel (x :: xs) ≤ (stringifyChars x ++ stringifyArrRest xs).length + 2 := by
  cases xs with
  | nil =>
    have h := jfuel_le_len x
    simp only [afuel, stringifyArrRest, List.append_nil, List.length_append]
    omega
  | cons y ys =>
    have h1 := jfuel_le_len x
    have h2 := afuel_le_len y ys
    simp only [afuel, stringifyArrRest, List.length_append, List.length_cons] at h2 ⊢
    omega
termination_by 1 + sizeOf x + sizeOf xs
decreasing_by
  all_goals simp
  all_goals omega

theorem ofuel_le_len (k : String) (v : Json) (fs : List (String × Json)) :
    ofuel ((k, v) :: fs) ≤ (stringifyField (k, v) ++ stringifyObjRest fs).length + 2 := by
  have hfield : (stringifyField (k, v)).length = (quoteChars k.data).length
      + 1 + (stringifyChars v).length := by
    simp [stringifyField]
    omega
  cases fs with
  | nil =>
    have h := jfuel_le_len v
    simp only [ofuel, stringifyObjRest, List.append_nil, hfield]
    omega
  | cons f' fs' =>
    obtain ⟨k', v'⟩ := f'
    have h1 := jfuel_le_len v
    have h2 := ofuel_le_len k' v' fs'
    simp only [ofuel, stringifyObjRest, List.length_append, List.length_cons] at h2 ⊢
    rw [hfield]
    omega
termination_by 1 + sizeOf v + sizeOf fs
decreasing_by
  all_goals simp
  all_goals omega

end

/-- The central JSON lemma: parsing recovers any serialised value. -/
theorem jsonParse_stringify (v : Json) : jsonParse (jsonStringify v) = some v := by
  show (match parseVal ((stringifyChars v).length + 1) (stringifyChars v) with
    | some (w, []) => some w
    | _ => none) = some v
  have h := (parse_stringify_main ((stringifyChars v).length + 1)).1 v []
    (by have := jfuel_le_len v; omega) trivial
  rw [List.append_nil] at h
  rw [h]

/-- A `Char`s scalar value is below 0x110000 and is not a surrogate. -/
theorem charToNat_valid (c : Char) :
    c.toNat < 1114112 ∧ ¬(55296 ≤ c.toNat ∧ c.toNat < 57344) := by
  have h := c.valid
  rcases h with h | h
  · have : c.toNat < 55296 := h
    omega
  · obtain ⟨h1, h2⟩ := h
    have h1' : 57344 ≤ c.toNat := h1
    have h2' : c.toNat < 1114112 := h2
    omega

theorem utf8EncodeCh_cons (c : Char) : ∃ b0 bs, utf8EncodeCh c = b0 :: bs := by
  unfold utf8EncodeCh
  dsimp only
  split_ifs <;> exact ⟨_, _, rfl⟩

theorem utf8EncodeCh_length_pos (c : Char) : 1 ≤ (utf8EncodeCh c).length := by
  obtain ⟨b0, bs, h⟩ := utf8EncodeCh_cons c
  rw [h]
  simp

set_option maxRecDepth 8000 in
theorem utf8DecodeOne_encodeCh (c : Char) (rest : List Nat) :
    utf8DecodeOne (utf8EncodeCh c ++ rest) = some (c.toNat, rest) := by
  obtain ⟨hlt, hsur⟩ := charToNat_valid c
  unfold utf8EncodeCh
  dsimp only
  split_ifs with h1 h2 h3
  · show utf8DecodeOne (c.toNat :: rest) = _
    unfold utf8DecodeOne
    dsimp only
    rw [if_pos h1]
  · show utf8DecodeOne ((192 + c.toNat / 64) :: (128 + c.toNat % 64) :: rest) = _
    unfold utf8DecodeOne
    dsimp only
    rw [if_neg (by omega), if_neg (by omega), if_pos (by omega)]
    have hs : utf8Scalar2 (192 + c.toNat / 64) (128 + c.toNat % 64) = some c.toNat := by
      unfold utf8Scalar2
      rw [if_pos (by constructor <;> omega)]
      dsimp only
      rw [if_pos (by omega)]
      congr 1
      omega
    show (utf8Scalar2 (192 + c.toNat / 64) (128 + c.toNat % 64)).map (fun n => (n, rest))
        = some (c.toNat, rest)
    rw [hs]
    rfl
  · show utf8DecodeOne ((224 + c.toNat / 4096) :: (128 + (c.toNat / 64) % 64)
        :: (128 + c.toNat % 64) :: rest) = _
    unfold utf8DecodeOne
    dsimp only
    rw [if_neg (by omega), if_neg (by omega), if_neg (by omega), if_pos (by omega)]
    have hs : utf8Scalar3 (224 + c.toNat / 4096) (128 + (c.toNat / 64) % 64)
        (128 + c.toNat % 64) = some c.toNat := by
      unfold utf8Scalar3
      rw [if_pos (by refine ⟨⟨?_, ?_⟩, ?_, ?_⟩ <;> omega)]
      dsimp only
      have harith : (224 + c.toNat / 4096 - 224) * 4096
          + (128 + (c.toNat / 64) % 64 - 128) * 64 + (128 + c.toNat % 64 - 128)
          = c.toNat := by omega
      rw [harith, if_pos ⟨by omega, hsur⟩]
    show (utf8Scalar3 (224 + c.toNat / 4096) (128 + (c.toNat / 64) % 64)
        (128 + c.toNat % 64)).map (fun n => (n, rest)) = some (c.toNat, rest)
    rw [hs]
    rfl
  · show utf8DecodeOne ((240 + c.toNat / 262144) :: (128 + (c.toNat / 4096) % 64)
        :: (128 + (c.toNat / 64) % 64) :: (128 + c.toNat % 64) :: rest) = _
    unfold utf8DecodeOne
    dsimp only
    rw [if_neg (by omega), if_neg (by omega), if_neg (by omega), if_neg (by omega),
      if_pos (by omega)]
    have hs : utf8Scalar4 (240 + c.toNat / 262144) (128 + (c.toNat / 4096) % 64)
        (128 + (c.toNat / 64) % 64) (128 + c.toNat % 64) = some c.toNat := by
      unfold utf8Scalar4
      rw [if_pos (by refine ⟨⟨?_, ?_⟩, ⟨?_, ?_⟩, ?_, ?_⟩ <;> omega)]
      dsimp only
      have harith : (240 + c.toNat / 262144 - 240) * 262144
          + (128 + (c.toNat / 4096) % 64 - 128) * 4096
          + (128 + (c.toNat / 64) % 64 - 128) * 64 + (128 + c.toNat % 64 - 128)
          = c.toNat := by omega
      rw [harith, if_pos ⟨by omega, hlt⟩]
    show (utf8Scalar4 (240 + c.toNat / 262144) (128 + (c.toNat / 4096) % 64)
        (128 + (c.toNat / 64) % 64) (128 + c.toNat % 64)).map (fun n => (n, rest))
        = some (c.toNat, rest)
    rw [hs]
    rfl

theorem utf8DecodeLoop_encode (l : List Char) :
    ∀ fuel, ((l.map utf8EncodeCh).flatten).length ≤ fuel →
      utf8DecodeLoop fuel ((l.map utf8EncodeCh).flatten) = some l := by
  induction l with
  | nil => intro fuel _; cases fuel <;> rfl
  | cons c t ih =>
    intro fuel hfuel
    obtain ⟨b0, bs, hc⟩ := utf8EncodeCh_cons c
    have hlen : 1 ≤ (utf8EncodeCh c).length := utf8EncodeCh_length_pos c
    rw [List.map_cons, List.flatten_cons] at hfuel ⊢
    cases fuel with
    | zero =>
      exfalso
      rw [List.length_append] at hfuel
      omega
    | succ g =>
      rw [hc, List.cons_append, utf8DecodeLoop.eq_3, ← List.cons_append, ← hc,
        utf8DecodeOne_encodeCh]
      have ht : ((t.map utf8EncodeCh).flatten).length ≤ g := by
        rw [List.length_append] at hfuel
        omega
      show (utf8DecodeLoop g ((t.map utf8EncodeCh).flatten)).map
          (fun l => Char.ofNat c.toNat :: l) = some (c :: t)
      rw [ih g ht, Char.ofNat_toNat]
      rfl

/-- Decoding recovers encoding (the TextDecoder/TextEncoder round-trip). -/
theorem utf8Decode_encode (s : String) : utf8Decode (utf8Encode s) = some s := by
  show (utf8DecodeChars ((s.data.map utf8EncodeCh).flatten)).map String.mk = some s
  unfold utf8DecodeChars
  rw [utf8DecodeLoop_encode s.data _ le_rfl]
  rfl

theorem b64Index_b64Ch_fin : ∀ v : Fin 64, b64Index (b64Ch v.val) = some v.val := by
  decide

theorem b64Index_b64Ch (v : Nat) (h : v < 64) : b64Index (b64Ch v) = some v :=
  b64Index_b64Ch_fin ⟨v, h⟩

theorem b64Ch_ne_eq_fin : ∀ v : Fin 64, b64Ch v.val ≠ '=' := by
  decide

theorem b64Ch_ne_eq (v : Nat) (h : v < 64) : b64Ch v ≠ '=' :=
  b64Ch_ne_eq_fin ⟨v, h⟩

/-- `atob` recovers `btoa` output. -/
theorem atobChars_btoaBytes : ∀ bs : List Nat, (∀ b ∈ bs, b < 256) →
    atobChars (btoaBytes bs) = some bs := by
  intro bs
  induction bs using btoaBytes.induct with
  | case1 => intro _; rfl
  | case2 b0 =>
    intro h
    have hb0 : b0 < 256 := h b0 (by simp)
    show atobChars [b64Ch (b0 / 4), b64Ch (b0 % 4 * 16), '=', '='] = some [b0]
    rw [atobChars.eq_2]
    rw [b64Index_b64Ch _ (by omega), b64Index_b64Ch _ (by omega)]
    show (if '=' = '=' then if ('=' = '=' ∧ ([] : List Char) = []) then
        some [b0 / 4 * 4 + b0 % 4 * 16 / 16] else none else _) = some [b0]
    rw [if_pos rfl, if_pos ⟨rfl, rfl⟩]
    congr 2
    omega
  | case3 b0 b1 =>
    intro h
    have hb0 : b0 < 256 := h b0 (by simp)
    have hb1 : b1 < 256 := h b1 (by simp)
    show atobChars [b64Ch (b0 / 4), b64Ch (b0 % 4 * 16 + b1 / 16), b64Ch (b1 % 16 * 4), '=']
        = some [b0, b1]
    have hne : b64Ch (b1 % 16 * 4) ≠ '=' := b64Ch_ne_eq _ (by omega)
    simp only [atobChars.eq_2, b64Index_b64Ch (b0 / 4) (by omega),
      b64Index_b64Ch (b0 % 4 * 16 + b1 / 16) (by omega),
      b64Index_b64Ch (b1 % 16 * 4) (by omega), hne, if_false, reduceIte,
      Option.some.injEq, List.cons.injEq, and_true]
    constructor
    · omega
    · omega
  | case4 b0 b1 b2 rest ih =>
    intro h
    have hb0 : b0 < 256 := h b0 (by simp)
    have hb1 : b1 < 256 := h b1 (by simp)
    have hb2 : b2 < 256 := h b2 (by simp)
    have hrest := ih (fun b hb => h b (by simp [hb]))
    show atobChars (b64Ch (b0 / 4) :: b64Ch (b0 % 4 * 16 + b1 / 16)
        :: b64Ch (b1 % 16 * 4 + b2 / 64) :: b64Ch (b2 % 64) :: btoaBytes rest)
        = some (b0 :: b1 :: b2 :: rest)
    have hne2 : b64Ch (b1 % 16 * 4 + b2 / 64) ≠ '=' := b64Ch_ne_eq _ (by omega)
    have hne3 : b64Ch (b2 % 64) ≠ '=' := b64Ch_ne_eq _ (by omega)
    simp only [atobChars.eq_2, b64Index_b64Ch (b0 / 4) (by omega),
      b64Index_b64Ch (b0 % 4 * 16 + b1 / 16) (by omega),
      b64Index_b64Ch (b1 % 16 * 4 + b2 / 64) (by omega),
      b64Index_b64Ch (b2 % 64) (by omega), hne2, hne3, if_false, reduceIte, hrest,
      Option.map_some', Option.some.injEq, List.cons.injEq, and_true]
    refine ⟨by omega, by omega, by omega⟩

theorem btoaBytes_struct : ∀ bs : List Nat, (∀ b ∈ bs, b < 256) →
    ∃ P, btoaBytes bs = P ++ List.replicate (b64PadK bs.length) '='
      ∧ (∀ c ∈ P, ∃ v, v < 64 ∧ c = b64Ch v)
      ∧ P.length + b64PadK bs.length = 4 * ((bs.length + 2) / 3) := by
  intro bs
  induction bs using btoaBytes.induct with
  | case1 =>
    intro _
    exact ⟨[], rfl, by simp, by simp [b64PadK]⟩
  | case2 b0 =>
    intro h
    have hb0 : b0 < 256 := h b0 (by simp)
    refine ⟨[b64Ch (b0 / 4), b64Ch (b0 % 4 * 16)], ?_, ?_, ?_⟩
    · rfl
    · intro c hc
      rcases List.mem_cons.1 hc with hh | hc
      · exact ⟨b0 / 4, by omega, hh⟩
      · rw [List.mem_singleton] at hc
        exact ⟨b0 % 4 * 16, by omega, hc⟩
    · simp [b64PadK]
  | case3 b0 b1 =>
    intro h
    have hb0 : b0 < 256 := h b0 (by simp)
    have hb1 : b1 < 256 := h b1 (by simp)
    refine ⟨[b64Ch (b0 / 4), b64Ch (b0 % 4 * 16 + b1 / 16), b64Ch (b1 % 16 * 4)], ?_, ?_, ?_⟩
    · rfl
    · intro c hc
      rcases List.mem_cons.1 hc with hh | hc
      · exact ⟨b0 / 4, by omega, hh⟩
      rcases List.mem_cons.1 hc with hh | hc
      · exact ⟨b0 % 4 * 16 + b1 / 16, by omega, hh⟩
      rw [List.mem_singleton] at hc
      exact ⟨b1 % 16 * 4, by omega, hc⟩
    · simp [b64PadK]
  | case4 b0 b1 b2 rest ih =>
    intro h
    have hb0 : b0 < 256 := h b0 (by simp)
    have hb1 : b1 < 256 := h b1 (by simp)
    have hb2 : b2 < 256 := h b2 (by simp)
    obtain ⟨P, hP, hPc, hPl⟩ := ih (fun b hb => h b (by simp [hb]))
    refine ⟨b64Ch (b0 / 4) :: b64Ch (b0 % 4 * 16 + b1 / 16)
        :: b64Ch (b1 % 16 * 4 + b2 / 64) :: b64Ch (b2 % 64) :: P, ?_, ?_, ?_⟩
    · show b64Ch (b0 / 4) :: b64Ch (b0 % 4 * 16 + b1 / 16) :: b64Ch (b1 % 16 * 4 + b2 / 64)
          :: b64Ch (b2 % 64) :: btoaBytes rest = _
      rw [hP]
      have hk : b64PadK (b0 :: b1 :: b2 :: rest).length = b64PadK rest.length := by
        simp [b64PadK, List.length_cons]
        omega
      rw [hk]
      simp
    · intro c hc
      rcases List.mem_cons.1 hc with hh | hc
      · exact ⟨b0 / 4, by omega, hh⟩
      rcases List.mem_cons.1 hc with hh | hc
      · exact ⟨b0 % 4 * 16 + b1 / 16, by omega, hh⟩
      rcases List.mem_cons.1 hc with hh | hc
      · exact ⟨b1 % 16 * 4 + b2 / 64, by omega, hh⟩
      rcases List.mem_cons.1 hc with hh | hc
      · exact ⟨b2 % 64, by omega, hh⟩
      exact hPc c hc
    · simp only [List.length_cons]
      have hk : b64PadK (b0 :: b1 :: b2 :: rest).length = b64PadK rest.length := by
        simp [b64PadK, List.length_cons]
        omega
      simp only [List.length_cons] at hk
      rw [hk]
      have : (rest.length + 1 + 1 + 1 + 2) / 3 = (rest.length + 2) / 3 + 1 := by omega
      rw [this]
      omega

theorem b64PadK_le (n : Nat) : b64PadK n ≤ 2 := by
  simp [b64PadK]
  omega

theorem stripTrailingEq_append (l : List Char) (k : Nat) (h : ∀ c ∈ l, c ≠ '=') :
    stripTrailingEq (l ++ List.replicate k '=') = l := by
  unfold stripTrailingEq
  rw [List.reverse_append, List.reverse_replicate]
  have hdrop1 : ∀ m : Nat, ∀ tail : List Char,
      List.dropWhile (fun c => c = '=') (List.replicate m '=' ++ tail)
        = List.dropWhile (fun c => c = '=') tail := by
    intro m
    induction m with
    | zero => intro tail; rfl
    | succ m ihm =>
      intro tail
      rw [List.replicate_succ, List.cons_append, List.dropWhile_cons, if_pos (by decide)]
      exact ihm tail
  rw [hdrop1]
  have hdrop2 : List.dropWhile (fun c => c = '=') l.reverse = l.reverse := by
    cases hl : l.reverse with
    | nil => rfl
    | cons c t =>
      have hc : c ∈ l := by
        have : c ∈ l.reverse := by rw [hl]; simp
        simpa using this
      simp [List.dropWhile, h c hc]
  rw [hdrop2, List.reverse_reverse]

theorem urlUnmap_urlMap_b64_fin : ∀ v : Fin 64, urlUnmapCh (urlMapCh (b64Ch v.val)) = b64Ch v.val := by
  decide

theorem urlMap_b64_ne_eq_fin : ∀ v : Fin 64, urlMapCh (b64Ch v.val) ≠ '=' := by
  decide

theorem urlMap_b64_ne_dot_fin : ∀ v : Fin 64, urlMapCh (b64Ch v.val) ≠ '.' := by
  decide

/-- Characterisation of `base64UrlEncode`: its characters are the mapped
payload characters of `btoa`, stripped of padding. -/
theorem base64UrlEncode_data (bs : List Nat) (h : ∀ b ∈ bs, b < 256) :
    ∃ P, btoaBytes bs = P ++ List.replicate (b64PadK bs.length) '='
      ∧ (∀ c ∈ P, ∃ v, v < 64 ∧ c = b64Ch v)
      ∧ P.length + b64PadK bs.length = 4 * ((bs.length + 2) / 3)
      ∧ (base64UrlEncode bs).data = P.map urlMapCh := by
  obtain ⟨P, hP, hPc, hPl⟩ := btoaBytes_struct bs h
  refine ⟨P, hP, hPc, hPl, ?_⟩
  show stripTrailingEq ((btoaBytes bs).map urlMapCh) = P.map urlMapCh
  rw [hP, List.map_append, List.map_replicate]
  have hmapEq : urlMapCh '=' = '=' := rfl
  rw [hmapEq]
  refine stripTrailingEq_append _ _ ?_
  intro c hc
  obtain ⟨c', hc', hcc⟩ := List.mem_map.1 hc
  obtain ⟨v, hv, hcv⟩ := hPc c' hc'
  subst hcc
  subst hcv
  exact urlMap_b64_ne_eq_fin ⟨v, hv⟩

/-- Un-mapping and re-padding restores the exact `btoa` output: the heart of
`fromB64Json ∘ b64Json`. -/
theorem urlDecode_restores (bs : List Nat) (h : ∀ b ∈ bs, b < 256) :
    (base64UrlEncode bs).data.map urlUnmapCh
      ++ List.replicate (3 - ((base64UrlEncode bs).data.length + 3) % 4) '='
    = btoaBytes bs := by
  obtain ⟨P, hP, hPc, hPl, hdata⟩ := base64UrlEncode_data bs h
  rw [hdata]
  have hunmap : (P.map urlMapCh).map urlUnmapCh = P := by
    rw [List.map_map]
    have : ∀ c ∈ P, (urlUnmapCh ∘ urlMapCh) c = c := by
      intro c hc
      obtain ⟨v, hv, hcv⟩ := hPc c hc
      subst hcv
      exact urlUnmap_urlMap_b64_fin ⟨v, hv⟩
    exact List.map_congr_left this |>.trans (List.map_id P)
  rw [hunmap]
  have hlen : (P.map urlMapCh).length = P.length := List.length_map P urlMapCh
  rw [hlen]
  have hk := b64PadK_le bs.length
  have hpad : 3 - (P.length + 3) % 4 = b64PadK bs.length := by omega
  rw [hpad, ← hP]

theorem utf8EncodeCh_lt256 (c : Char) : ∀ b ∈ utf8EncodeCh c, b < 256 := by
  obtain ⟨hlt, -⟩ := charToNat_valid c
  unfold utf8EncodeCh
  dsimp only
  split_ifs with h1 h2 h3
  · intro b hb
    rw [List.mem_singleton] at hb
    omega
  · intro b hb
    rcases List.mem_cons.1 hb with rfl | hb
    · omega
    rw [List.mem_singleton] at hb
    omega
  · intro b hb
    rcases List.mem_cons.1 hb with rfl | hb
    · omega
    rcases List.mem_cons.1 hb with rfl | hb
    · omega
    rw [List.mem_singleton] at hb
    omega
  · intro b hb
    rcases List.mem_cons.1 hb with rfl | hb
    · omega
    rcases List.mem_cons.1 hb with rfl | hb
    · omega
    rcases List.mem_cons.1 hb with rfl | hb
    · omega
    rw [List.mem_singleton] at hb
    omega

theorem utf8Encode_lt256 (s : String) : ∀ b ∈ utf8Encode s, b < 256 := by
  intro b hb
  unfold utf8Encode at hb
  rw [List.mem_flatten] at hb
  obtain ⟨l, hl, hbl⟩ := hb
  obtain ⟨c, -, hcl⟩ := List.mem_map.1 hl
  subst hcl
  exact utf8EncodeCh_lt256 c b hbl

/-- The base64url/JSON/UTF-8 round-trip used by the token scheme. -/
theorem fromB64Json_b64Json (v : Json) : fromB64Json (b64Json v) = some v := by
  unfold fromB64Json b64Json
  rw [urlDecode_restores _ (utf8Encode_lt256 _),
    atobChars_btoaBytes _ (utf8Encode_lt256 _)]
  show (match utf8Decode (utf8Encode (jsonStringify v)) with
    | none => none
    | some str => jsonParse str) = some v
  rw [utf8Decode_encode]
  show jsonParse (jsonStringify v) = some v
  exact jsonParse_stringify v

theorem base64UrlEncode_no_dot (bs : List Nat) (h : ∀ b ∈ bs, b < 256) :
    ∀ c ∈ (base64UrlEncode bs).data, c ≠ '.' := by
  obtain ⟨P, -, hPc, -, hdata⟩ := base64UrlEncode_data bs h
  rw [hdata]
  intro c hc
  obtain ⟨c', hc', hcc⟩ := List.mem_map.1 hc
  obtain ⟨v, hv, hcv⟩ := hPc c' hc'
  subst hcc
  subst hcv
  exact urlMap_b64_ne_dot_fin ⟨v, hv⟩

theorem base64UrlEncode_ne_nil (bs : List Nat) (h : ∀ b ∈ bs, b < 256)
    (hbs : bs ≠ []) : (base64UrlEncode bs).data ≠ [] := by
  obtain ⟨P, -, -, hPl, hdata⟩ := base64UrlEncode_data bs h
  rw [hdata]
  have hk := b64PadK_le bs.length
  have hlen : 1 ≤ bs.length := by
    cases bs with
    | nil => exact absurd rfl hbs
    | cons b t => simp
  have hPpos : 0 < P.length := by
    have : 4 ≤ 4 * ((bs.length + 2) / 3) := by
      have : 1 ≤ (bs.length + 2) / 3 := by omega
      omega
    omega
  intro hmap
  rw [List.map_eq_nil_iff] at hmap
  rw [hmap] at hPpos
  simp at hPpos

theorem be32_lt256 (n : Nat) : ∀ b ∈ be32 n, b < 256 := by
  intro b hb
  simp only [be32, List.mem_cons, List.mem_singleton, List.not_mem_nil, or_false] at hb
  rcases hb with rfl | rfl | rfl | rfl <;> omega

theorem sha256Bytes_lt256 (msg : List Nat) : ∀ b ∈ sha256Bytes msg, b < 256 := by
  intro b hb
  unfold sha256Bytes at hb
  dsimp only at hb
  repeat rw [List.mem_append] at hb
  rcases hb with ((((((hb | hb) | hb) | hb) | hb) | hb) | hb) | hb <;>
    exact be32_lt256 _ b hb

theorem sha256Bytes_ne_nil (msg : List Nat) : sha256Bytes msg ≠ [] := by
  unfold sha256Bytes
  dsimp only
  simp [be32]

theorem hmacSha256_lt256 (secret : String) (msg : List Nat) :
    ∀ b ∈ hmacSha256 secret msg, b < 256 :=
  fun b hb => sha256Bytes_lt256 _ b hb

theorem hmacSha256_ne_nil (secret : String) (msg : List Nat) :
    hmacSha256 secret msg ≠ [] :=
  sha256Bytes_ne_nil _

/-- The signature string is never empty. -/
theorem hmacSign_ne_empty (secret data : String) : (hmacSign secret data).data ≠ [] :=
  base64UrlEncode_ne_nil _ (hmacSha256_lt256 secret _) (hmacSha256_ne_nil secret _)

/-- The signature string contains no `.`. -/
theorem hmacSign_no_dot (secret data : String) :
    ∀ c ∈ (hmacSign secret data).data, c ≠ '.' :=
  base64UrlEncode_no_dot _ (hmacSha256_lt256 secret _)

theorem splitCh_ne_nil (c : Char) (l : List Char) : splitCh c l ≠ [] := by
  cases l with
  | nil => simp [splitCh]
  | cons x xs =>
    rw [splitCh]
    split <;> split <;> simp

theorem splitCh_no_sep (c : Char) (l : List Char) (h : ∀ x ∈ l, x ≠ c) :
    splitCh c l = [l] := by
  induction l with
  | nil => rfl
  | cons x xs ih =>
    rw [splitCh, ih (fun y hy => h y (by simp [hy]))]
    show (if x = c then [[], xs] else [x :: xs]) = [x :: xs]
    rw [if_neg (h x (by simp))]

theorem splitCh_append_sep (c : Char) (b s : List Char) (hb : ∀ x ∈ b, x ≠ c) :
    splitCh c (b ++ c :: s) = b :: splitCh c s := by
  induction b with
  | nil =>
    simp only [List.nil_append]
    rw [splitCh]
    cases h : splitCh c s with
    | nil => exact absurd h (splitCh_ne_nil c s)
    | cons h1 t1 =>
      show (if c = c then [] :: h1 :: t1 else (c :: h1) :: t1) = [] :: h1 :: t1
      rw [if_pos rfl]
  | cons x xs ih =>
    simp only [List.cons_append]
    rw [splitCh, ih (fun y hy => hb y (by simp [hy]))]
    show (if x = c then [] :: xs :: splitCh c s
        else (x :: xs) :: splitCh c s) = (x :: xs) :: splitCh c s
    rw [if_neg (hb x (by simp))]

theorem string_data_append (a b : String) : (a ++ b).data = a.data ++ b.data := by
  cases a
  cases b
  rfl

theorem string_ne_empty_of_data (s : String) (h : s.data ≠ []) : s ≠ "" := by
  intro he
  subst he
  exact h rfl

/-- Splitting a token of the shape `body.sig` at dots, when neither part
contains a dot. -/
theorem splitDot_token (body sig : String)
    (hb : ∀ x ∈ body.data, x ≠ '.') (hs : ∀ x ∈ sig.data, x ≠ '.') :
    splitDotStr (body ++ "." ++ sig) = [body, sig] := by
  unfold splitDotStr
  have hdata : (body ++ "." ++ sig).data = body.data ++ '.' :: sig.data := by
    rw [string_data_append, string_data_append]
    show body.data ++ ['.'] ++ sig.data = _
    rw [List.append_assoc]
    rfl
  rw [hdata, splitCh_append_sep '.' body.data sig.data hb, splitCh_no_sep '.' sig.data hs]
  simp [strMk_data]

theorem stringifyChars_ne_nil (v : Json) : stringifyChars v ≠ [] := by
  cases v with
  | null => simp [stringifyChars]
  | bool b => cases b <;> simp [stringifyChars]
  | num n =>
    show intToChars n ≠ []
    unfold intToChars
    split
    · simp
    · exact natToChars_ne_nil _
  | str s => simp [stringifyChars, quoteChars]
  | arr xs => cases xs <;> simp [stringifyChars]
  | obj fs => cases fs <;> simp [stringifyChars]

theorem utf8Encode_ne_nil (s : String) (h : s.data ≠ []) : utf8Encode s ≠ [] := by
  unfold utf8Encode
  cases hd : s.data with
  | nil => exact absurd hd h
  | cons c t =>
    obtain ⟨b0, bs, hc⟩ := utf8EncodeCh_cons c
    rw [List.map_cons, List.flatten_cons, hc]
    simp

theorem b64Json_ne_empty (p : Json) : (b64Json p).data ≠ [] := by
  refine base64UrlEncode_ne_nil _ (utf8Encode_lt256 _) (utf8Encode_ne_nil _ ?_)
  show stringifyChars p ≠ []
  exact stringifyChars_ne_nil p

theorem b64Json_no_dot (p : Json) : ∀ c ∈ (b64Json p).data, c ≠ '.' :=
  base64UrlEncode_no_dot _ (utf8Encode_lt256 _)

/-- What `verifyToken` does to a token this worker minted with the same
secret: the split, signature and decode steps all succeed and the result is
decided entirely by the `exp` check on the original payload. -/
theorem verifyToken_makeToken (env : Env) (now : Int) (p : Json) :
    verifyToken env now (makeToken env p)
      = match getProp p "exp" with
        | .error m => .error m
        | .ok expOpt =>
          if jsTruthyOpt expOpt && jsGtNum now (expOpt.getD Json.null)
          then .error "Token expired"
          else .ok p := by
  unfold verifyToken makeToken
  rw [splitDot_token (b64Json p) (hmacSign env.TOKEN_SECRET (b64Json p))
    (b64Json_no_dot p) (hmacSign_no_dot _ _)]
  have hbody : b64Json p ≠ "" := string_ne_empty_of_data _ (b64Json_ne_empty p)
  have hsig : hmacSign env.TOKEN_SECRET (b64Json p) ≠ "" :=
    string_ne_empty_of_data _ (hmacSign_ne_empty _ _)
  show (if b64Json p = "" ∨ hmacSign env.TOKEN_SECRET (b64Json p) = "" then _ else _) = _
  rw [if_neg (by
    rintro (h | h)
    · exact hbody h
    · exact hsig h)]
  rw [if_neg (by
    intro hne
    exact hne rfl)]
  simp only [List.getD_cons_zero, List.getD_cons_succ]
  rw [fromB64Json_b64Json p]

theorem getProp_ok (v : Json) (k : String) (h : v ≠ Json.null) :
    getProp v k = .ok (getPropTotal v k) := by
  cases v with
  | null => exact absurd rfl h
  | bool b => rfl
  | num n => rfl
  | str s => rfl
  | arr xs => rfl
  | obj fs => rfl

/-- Non-expiry: when `exp` is absent, or a number not in the past, the gate
does not fire. -/
theorem expGate_pass (now : Int) (expOpt : Option Json)
    (h : expOpt = none ∨ ∃ e : Int, expOpt = some (Json.num e) ∧ now ≤ e) :
    (jsTruthyOpt expOpt && jsGtNum now (expOpt.getD Json.null)) = false := by
  rcases h with rfl | ⟨e, rfl, he⟩
  · rfl
  · show (jsTruthy (Json.num e) && jsGtNum now (Json.num e)) = false
    have : jsGtNum now (Json.num e) = false := by
      show decide (now > e) = false
      simp
      omega
    rw [this, Bool.and_false]

/-- The general round-trip: a non-null payload whose `exp` is absent or not
in the past verifies to itself. -/
theorem verifyToken_makeToken_ok (env : Env) (now : Int) (p : Json)
    (hnn : p ≠ Json.null)
    (hexp : getPropTotal p "exp" = none
      ∨ ∃ e : Int, getPropTotal p "exp" = some (Json.num e) ∧ now ≤ e) :
    verifyToken env now (makeToken env p) = .ok p := by
  rw [verifyToken_makeToken, getProp_ok p "exp" hnn]
  show (if (jsTruthyOpt (getPropTotal p "exp")
      && jsGtNum now ((getPropTotal p "exp").getD Json.null)) = true
    then Except.error "Token expired" else Except.ok p) = Except.ok p
  rw [expGate_pass now _ hexp]
  rfl

/-- The expiry gate fires on a truthy numeric `exp` in the past, for any
well-formed, well-signed token (not only minted ones). -/
theorem verifyToken_expired (env : Env) (now : Int) (body : String)
    (hb : ∀ x ∈ body.data, x ≠ '.')
    (p : Json) (hdec : fromB64Json body = some p)
    (e : Int) (hexp : getPropTotal p "exp" = some (Json.num e))
    (hne : e ≠ 0) (hlt : e < now) :
    verifyToken env now (body ++ "." ++ hmacSign env.TOKEN_SECRET body)
      = .error "Token expired" := by
  have hpnn : p ≠ Json.null := by
    intro hp
    rw [hp] at hexp
    exact Option.noConfusion hexp
  have hbody_ne : body ≠ "" := by
    intro hb0
    rw [hb0] at hdec
    have : fromB64Json "" = none := rfl
    rw [this] at hdec
    exact Option.noConfusion hdec
  unfold verifyToken
  rw [splitDot_token body (hmacSign env.TOKEN_SECRET body) hb (hmacSign_no_dot _ _)]
  have hsig_ne : hmacSign env.TOKEN_SECRET body ≠ "" :=
    string_ne_empty_of_data _ (hmacSign_ne_empty _ _)
  show (if body = "" ∨ hmacSign env.TOKEN_SECRET body = "" then _ else _) = _
  rw [if_neg (by
    rintro (h | h)
    · exact hbody_ne h
    · exact hsig_ne h)]
  rw [if_neg (by
    intro hne'
    exact hne' rfl)]
  simp only [List.getD_cons_zero, List.getD_cons_succ]
  rw [hdec]
  show (match getProp p "exp" with
    | Except.error m => Except.error m
    | Except.ok expOpt =>
      if (jsTruthyOpt expOpt && jsGtNum now (expOpt.getD Json.null)) = true
      then Except.error "Token expired" else Except.ok p) = _
  rw [getProp_ok p "exp" hpnn, hexp]
  show (if (jsTruthy (Json.num e) && jsGtNum now (Json.num e)) = true
    then Except.error "Token expired" else Except.ok p) = _
  have ht : jsTruthy (Json.num e) = true := by
    show decide (e ≠ 0) = true
    simp [hne]
  have hg : jsGtNum now (Json.num e) = true := by
    show decide (now > e) = true
    simp
    omega
  rw [ht, hg]
  rfl

theorem set_self_of_getElem {α : Type} (l : List α) (i : Nat) (a : α)
    (h : l[i]? = some a) : l.set i a = l := by
  induction l generalizing i with
  | nil => simp at h
  | cons x t ih =>
    cases i with
    | zero =>
      simp at h
      rw [h]
      rfl
    | succ k =>
      simp at h
      show x :: t.set k a = x :: t
      rw [ih k h]

theorem cons_set_perm {α : Type} (l : List α) (k : Nat) (a b : α)
    (h : l[k]? = some b) : (b :: l.set k a).Perm (a :: l) := by
  induction l generalizing k with
  | nil => simp at h
  | cons y t ih =>
    cases k with
    | zero =>
      simp at h
      subst h
      show (y :: a :: t).Perm (a :: y :: t)
      exact List.Perm.swap a y t
    | succ k =>
      simp at h
      show (b :: y :: t.set k a).Perm (a :: y :: t)
      have h1 : (b :: y :: t.set k a).Perm (y :: b :: t.set k a) := List.Perm.swap y b _
      have h2 : (y :: b :: t.set k a).Perm (y :: a :: t) := List.Perm.cons y (ih k h)
      have h3 : (y :: a :: t).Perm (a :: y :: t) := List.Perm.swap a y t
      exact (h1.trans h2).trans h3

theorem swap_set_perm {α : Type} (l : List α) (i j : Nat) (a b : α)
    (hi : l[i]? = some a) (hj : l[j]? = some b) :
    ((l.set i b).set j a).Perm l := by
  induction l generalizing i j with
  | nil => simp at hi
  | cons x t ih =>
    cases i with
    | zero =>
      simp at hi
      subst hi
      cases j with
      | zero =>
        simp at hj
        subst hj
        exact List.Perm.refl _
      | succ k =>
        simp at hj
        exact cons_set_perm t k x b hj
    | succ k =>
      simp at hi
      cases j with
      | zero =>
        simp at hj
        subst hj
        exact cons_set_perm t k x a hi
      | succ m =>
        simp at hj
        show (x :: (t.set k b).set m a).Perm (x :: t)
        exact List.Perm.cons x (ih k m hi hj)

theorem listSwap_perm {α : Type} (l : List α) (i j : Nat) :
    (listSwap l i j).Perm l := by
  unfold listSwap
  cases hi : l[i]? with
  | none => cases l[j]? <;> exact List.Perm.refl l
  | some a =>
    cases hj : l[j]? with
    | none => exact List.Perm.refl l
    | some b => exact swap_set_perm l i j a b hi hj

theorem shuffleGo_perm {α : Type} (k : Nat) :
    ∀ (a : List α) (seed : Nat), (shuffleGo a seed k).Perm a := by
  induction k with
  | zero => intro a seed; exact List.Perm.refl a
  | succ k ih =>
    intro a seed
    rw [shuffleGo]
    exact (ih _ _).trans (listSwap_perm a (k + 1) _)

theorem stableShuffle_perm {α : Type} (arr : List α) (seedStr : String) :
    (stableShuffle arr seedStr).Perm arr :=
  shuffleGo_perm (arr.length - 1) arr (hash32 seedStr)

theorem DB_eq (a b : DB) (h1 : a.access_codes = b.access_codes)
    (h2 : a.votes = b.votes) : a = b := by
  cases a
  cases b
  cases h1
  cases h2
  rfl

theorem dbUpsertVote_votes (db : DB) (row : VoteRow) :
    (dbUpsertVote db row).votes
      = if db.votes.any (fun r => r.id = row.id)
        then db.votes.map (fun r => if r.id = row.id then row else r)
        else db.votes ++ [row] := rfl

theorem dbUpsertVote_access (db : DB) (row : VoteRow) :
    (dbUpsertVote db row).access_codes = db.access_codes := rfl

theorem any_id_dbUpsertVote (db : DB) (row : VoteRow) :
    (dbUpsertVote db row).votes.any (fun r => r.id = row.id) = true := by
  rw [dbUpsertVote_votes]
  by_cases h : db.votes.any (fun r => r.id = row.id) = true
  · rw [if_pos h]
    rw [List.any_eq_true] at h ⊢
    obtain ⟨r, hr, hid⟩ := h
    refine ⟨row, ?_, by simp⟩
    rw [List.mem_map]
    refine ⟨r, hr, ?_⟩
    simp at hid
    simp [hid]
  · rw [if_neg h]
    simp

theorem map_replace_noop (l : List VoteRow) (row : VoteRow)
    (h : l.any (fun r => r.id = row.id) = false) :
    l.map (fun r => if r.id = row.id then row else r) = l := by
  induction l with
  | nil => rfl
  | cons x t ih =>
    simp only [List.any_cons, Bool.or_eq_false_iff] at h
    obtain ⟨hx, ht⟩ := h
    simp at hx
    simp [hx, ih ht]

theorem map_replace_idem (l : List VoteRow) (row : VoteRow) :
    (l.map (fun r => if r.id = row.id then row else r)).map
        (fun r => if r.id = row.id then row else r)
      = l.map (fun r => if r.id = row.id then row else r) := by
  rw [List.map_map]
  apply List.map_congr_left
  intro r _
  by_cases h : r.id = row.id <;> simp [h]

theorem dbUpsertVote_idem (db : DB) (row : VoteRow) :
    dbUpsertVote (dbUpsertVote db row) row = dbUpsertVote db row := by
  apply DB_eq
  · rfl
  · rw [dbUpsertVote_votes (dbUpsertVote db row) row, any_id_dbUpsertVote, if_pos rfl]
    rw [dbUpsertVote_votes db row]
    by_cases h : db.votes.any (fun r => r.id = row.id) = true
    · rw [if_pos h]
      exact map_replace_idem db.votes row
    · rw [if_neg h]
      rw [List.map_append, map_replace_noop db.votes row (by simpa using h)]
      simp

theorem dbUpsertVote_length (db : DB) (row : VoteRow)
    (h : db.votes.any (fun r => r.id = row.id) = true) :
    (dbUpsertVote db row).votes.length = db.votes.length := by
  rw [dbUpsertVote_votes, if_pos h, List.length_map]

theorem dbUpsertVote_mem (db : DB) (row : VoteRow) :
    row ∈ (dbUpsertVote db row).votes := by
  rw [dbUpsertVote_votes]
  by_cases h : db.votes.any (fun r => r.id = row.id) = true
  · rw [if_pos h]
    rw [List.any_eq_true] at h
    obtain ⟨r, hr, hid⟩ := h
    rw [List.mem_map]
    refine ⟨r, hr, ?_⟩
    simp at hid
    simp [hid]
  · rw [if_neg h]
    simp

theorem usesInv_decrement (db : DB) (codeHash : String) (h : usesInv db) :
    usesInv (dbDecrementUsesRemaining db codeHash) := by
  intro r hr
  have hr' : r ∈ db.access_codes.map (fun s =>
      match s.uses_remaining with
      | some u => if s.code_hash = codeHash ∧ 0 < u
                  then { s with uses_remaining := some (u - 1) } else s
      | none => s) := hr
  rw [List.mem_map] at hr'
  obtain ⟨s, hs, hmap⟩ := hr'
  have hbase := h s hs
  cases hu : s.uses_remaining with
  | none =>
    rw [hu] at hmap
    rw [← hmap]
    simp [hu]
  | some u =>
    rw [hu] at hmap
    have hmap' : (if s.code_hash = codeHash ∧ 0 < u
        then { s with uses_remaining := some (u - 1) } else s) = r := hmap
    by_cases hc : s.code_hash = codeHash ∧ 0 < u
    · rw [if_pos hc] at hmap'
      obtain ⟨-, hpos⟩ := hc
      rw [← hmap']
      simp
      omega
    · rw [if_neg hc] at hmap'
      rw [← hmap']
      simpa [hu] using hbase

theorem usesInv_upsert (db : DB) (row : VoteRow) (h : usesInv db) :
    usesInv (dbUpsertVote db row) :=
  fun r hr => h r hr

theorem startHandler_eq (env : Env) (db : DB) (now : Int) (body : Json) :
    startHandler env db now body = startHandlerX env db now body := by
  unfold startHandler startHandlerX
  cases getProp body "code" with
  | error m => rfl
  | ok codeJ => rfl

theorem voteHandler_eq (env : Env) (db : DB) (now : Int) (body : Json) :
    voteHandler env db now body = voteHandlerX env db now body := by
  unfold voteHandler voteHandlerX
  cases getProp body "token" with
  | error m => rfl
  | ok tokJ =>
    cases getProp body "vote" with
    | error m => rfl
    | ok voteJ => rfl

theorem runtimeFetch_eq (env : Env) (db : DB) (now : Int) (req : Req) :
    runtimeFetch env db now req = respOf (fetchHandler env db now req) db := by
  unfold runtimeFetch respOf
  cases fetchHandler env db now req <;> rfl

theorem usesDepleted_false_iff (doc : AccessCodeRow) :
    usesDepleted doc = false
      ↔ (doc.uses_remaining = none || 0 < doc.uses_remaining.getD 0) = true := by
  cases hu : doc.uses_remaining with
  | none => simp [usesDepleted, hu]
  | some u => simp [usesDepleted, hu]

theorem expiresTruthy_false_iff (doc : AccessCodeRow) :
    expiresTruthy doc = false
      ↔ (doc.expires_at = none || doc.expires_at = some "") = true := by
  cases he : doc.expires_at with
  | none => simp [expiresTruthy, he]
  | some e => simp [expiresTruthy, he]

theorem ok_pair_inj {p : WorkerResponse × DB} {res : WorkerResponse} {db' : DB}
    (h : (Except.ok p : Except String (WorkerResponse × DB)) = .ok (res, db')) :
    res = p.1 ∧ db' = p.2 := by
  injection h with h'
  exact ⟨(congrArg Prod.fst h').symm, (congrArg Prod.snd h').symm⟩

theorem startIssue_db (env : Env) (db : DB) (now : Int) (ch : String)
    (doc : AccessCodeRow) :
    (startIssue env db now ch doc).2
      = if doc.uses_remaining ≠ none then dbDecrementUsesRemaining db ch else db := rfl

theorem startIssue_catalogue (env : Env) (db : DB) (now : Int) (ch : String)
    (doc : AccessCodeRow) :
    (startIssue env db now ch doc).1.status = 200
    ∧ (∃ t, (startIssue env db now ch doc).1.body
        = Json.obj [("ok", Json.bool true), ("token", Json.str t)])
    ∧ ((startIssue env db now ch doc).2 = db
        ∨ ∃ c, (startIssue env db now ch doc).2 = dbDecrementUsesRemaining db c) := by
  refine ⟨rfl, ⟨_, rfl⟩, ?_⟩
  rw [startIssue_db]
  by_cases hu : doc.uses_remaining ≠ none
  · exact Or.inr ⟨ch, by rw [if_pos hu]⟩
  · exact Or.inl (by rw [if_neg hu])

theorem startHandler_cases (env : Env) (db : DB) (now : Int) (body : Json)
    (res : WorkerResponse) (db' : DB)
    (h : startHandler env db now body = .ok (res, db')) :
    (res.status = 200
      ∧ (∃ t, res.body = Json.obj [("ok", Json.bool true), ("token", Json.str t)])
      ∧ (db' = db ∨ ∃ ch, db' = dbDecrementUsesRemaining db ch))
    ∨ ((∃ m, res = errResp 400 m ∨ res = errResp 403 m ∨ res = errResp 500 m)
        ∧ db' = db) := by
  rw [startHandler_eq] at h
  unfold startHandlerX at h
  split at h
  · exact Except.noConfusion h
  · split at h
    · obtain ⟨hres, hdb⟩ := ok_pair_inj h
      exact Or.inr ⟨⟨"Missing code", Or.inl hres⟩, hdb⟩
    · split at h
      · obtain ⟨hres, hdb⟩ := ok_pair_inj h
        exact Or.inr ⟨⟨"Invalid code", Or.inr (Or.inl hres)⟩, hdb⟩
      · split at h
        · obtain ⟨hres, hdb⟩ := ok_pair_inj h
          exact Or.inr ⟨⟨"Code inactive", Or.inr (Or.inl hres)⟩, hdb⟩
        · split at h
          · obtain ⟨hres, hdb⟩ := ok_pair_inj h
            exact Or.inr ⟨⟨"Code has no remaining uses", Or.inr (Or.inl hres)⟩, hdb⟩
          · split at h
            · split at h
              · obtain ⟨hres, hdb⟩ := ok_pair_inj h
                exact Or.inr ⟨⟨"Bad expires_at format in DB", Or.inr (Or.inr hres)⟩, hdb⟩
              · split at h
                · obtain ⟨hres, hdb⟩ := ok_pair_inj h
                  exact Or.inr ⟨⟨"Code expired", Or.inr (Or.inl hres)⟩, hdb⟩
                · obtain ⟨hres, hdb⟩ := ok_pair_inj h
                  subst hres
                  subst hdb
                  exact Or.inl (startIssue_catalogue env db now _ _)
            · obtain ⟨hres, hdb⟩ := ok_pair_inj h
              subst hres
              subst hdb
              exact Or.inl (startIssue_catalogue env db now _ _)

theorem voteHandler_cases (env : Env) (db : DB) (now : Int) (body : Json)
    (res : WorkerResponse) (db' : DB)
    (h : voteHandler env db now body = .ok (res, db')) :
    (res.status = 200 ∧ res.body = Json.obj [("ok", Json.bool true)]
      ∧ ∃ row, db' = dbUpsertVote db row)
    ∨ ((∃ m, res = errResp 400 m ∨ res = errResp 403 m) ∧ db' = db) := by
  rw [voteHandler_eq] at h
  unfold voteHandlerX at h
  split at h
  · exact Except.noConfusion h
  · split at h
    · exact Except.noConfusion h
    · split at h
      · obtain ⟨hres, hdb⟩ := ok_pair_inj h
        exact Or.inr ⟨⟨"Missing token or vote", Or.inl hres⟩, hdb⟩
      · split at h
        · obtain ⟨hres, hdb⟩ := ok_pair_inj h
          exact Or.inr ⟨⟨_, Or.inr hres⟩, hdb⟩
        · split at h
          · obtain ⟨hres, hdb⟩ := ok_pair_inj h
            exact Or.inr ⟨⟨_, Or.inl hres⟩, hdb⟩
          · split at h
            · obtain ⟨hres, hdb⟩ := ok_pair_inj h
              exact Or.inr ⟨⟨_, Or.inl hres⟩, hdb⟩
            · obtain ⟨hres, hdb⟩ := ok_pair_inj h
              subst hres
              subst hdb
              exact Or.inl ⟨rfl, rfl, ⟨_, rfl⟩⟩

theorem fetchHandler_db (env : Env) (db : DB) (now : Int) (req : Req)
    (res : WorkerResponse) (db' : DB)
    (h : fetchHandler env db now req = .ok (res, db')) :
    db' = db ∨ (∃ ch, db' = dbDecrementUsesRemaining db ch)
      ∨ (∃ row, db' = dbUpsertVote db row) := by
  unfold fetchHandler at h
  split at h
  · exact Or.inl (ok_pair_inj h).2
  · split at h
    · exact Or.inl (ok_pair_inj h).2
    · split at h
      · exact Or.inl (ok_pair_inj h).2
      · split at h
        · rcases startHandler_cases env db now req.body res db' h with
            ⟨-, -, hdb | ⟨ch, hdb⟩⟩ | ⟨-, hdb⟩
          · exact Or.inl hdb
          · exact Or.inr (Or.inl ⟨ch, hdb⟩)
          · exact Or.inl hdb
        · split at h
          · rcases voteHandler_cases env db now req.body res db' h with
              ⟨-, -, ⟨row, hdb⟩⟩ | ⟨-, hdb⟩
            · exact Or.inr (Or.inr ⟨row, hdb⟩)
            · exact Or.inl hdb
          · exact Or.inl (ok_pair_inj h).2

theorem usesInv_runtimeFetch (env : Env) (db : DB) (now : Int) (req : Req)
    (h : usesInv db) : usesInv (runtimeFetch env db now req).2 := by
  rw [runtimeFetch_eq]
  cases hf : fetchHandler env db now req with
  | error m => exact h
  | ok r =>
    obtain ⟨res, db'⟩ := r
    rcases fetchHandler_db env db now req res db' hf with hdb | ⟨ch, hdb⟩ | ⟨row, hdb⟩
    · show usesInv db'
      rw [hdb]
      exact h
    · show usesInv db'
      rw [hdb]
      exact usesInv_decrement db ch h
    · show usesInv db'
      rw [hdb]
      exact usesInv_upsert db row h

theorem usesInv_runSeq (env : Env) (reqs : List (Int × Req)) :
    ∀ db : DB, usesInv db → usesInv (runSeq env db reqs) := by
  induction reqs with
  | nil => exact fun db h => h
  | cons p rest ih =>
    intro db h
    obtain ⟨now, req⟩ := p
    exact ih _ (usesInv_runtimeFetch env db now req h)

theorem errResp_status (s : Nat) (m : String) : (errResp s m).status = s := rfl

theorem startIssue_status (env : Env) (db : DB) (now : Int) (ch : String)
    (doc : AccessCodeRow) : (startIssue env db now ch doc).1.status = 200 := rfl

theorem uses_ok_eq (doc : AccessCodeRow) :
    (decide (doc.uses_remaining = none) || decide (0 < doc.uses_remaining.getD 0))
      = !usesDepleted doc := by
  cases hu : doc.uses_remaining with
  | none => simp [usesDepleted, hu]
  | some u =>
    by_cases h0 : 0 < u
    · simp [usesDepleted, hu, h0, show ¬ u ≤ 0 from by omega]
    · simp [usesDepleted, hu, h0, show u ≤ 0 from by omega]

theorem expires_ok_eq (doc : AccessCodeRow) :
    (decide (doc.expires_at = none) || decide (doc.expires_at = some ""))
      = !expiresTruthy doc := by
  cases he : doc.expires_at with
  | none => simp [expiresTruthy, he]
  | some e =>
    by_cases hee : e = "" <;> simp [expiresTruthy, he, hee]

theorem startHandler_notNull (env : Env) (db : DB) (now : Int) (body : Json)
    (hnull : body ≠ Json.null) :
    startHandler env db now body = startCoreE env db now (getPropTotal body "code") := by
  rw [startHandler_eq]
  unfold startHandlerX startCoreE startDocE
  rw [getProp_ok body "code" hnull]

theorem startHandler_null (env : Env) (db : DB) (now : Int) :
    respOf (startHandler env db now Json.null) db
      = (⟨500, Json.str "Worker threw exception"⟩, db) := rfl

theorem startOkCond_null (db : DB) (now : Int) :
    startOkCond db now Json.null = false := rfl

theorem startCoreE_found (env : Env) (db : DB) (now : Int) (codeJ : Option Json)
    (doc : AccessCodeRow)
    (hc : ¬ strTrim (jsToString (jsOr codeJ (Json.str ""))) = "")
    (hd : dbGetAccessCode db (sha256Hex (strTrim (jsToString (jsOr codeJ (Json.str "")))))
      = some doc) :
    startCoreE env db now codeJ
      = startDocE env db now (sha256Hex (strTrim (jsToString (jsOr codeJ (Json.str ""))))) doc := by
  unfold startCoreE
  rw [if_neg hc, hd]

theorem startOkCond_found (db : DB) (now : Int) (body : Json) (doc : AccessCodeRow)
    (hd : dbGetAccessCode db
        (sha256Hex (strTrim (jsToString (jsOr (getPropTotal body "code") (Json.str "")))))
      = some doc) :
    startOkCond db now body
      = (decide (strTrim (jsToString (jsOr (getPropTotal body "code") (Json.str ""))) ≠ "")
         && docCond now doc) := by
  unfold startOkCond
  rw [hd]
  rfl

theorem startDoc_status_iff (env : Env) (db : DB) (now : Int) (ch : String)
    (doc : AccessCodeRow) :
    (respOf (startDocE env db now ch doc) db).1.status = 200 ↔ docCond now doc = true := by
  unfold startDocE docCond
  by_cases ha : doc.active = 1
  · rw [if_neg (not_not_intro ha)]
    by_cases hu : usesDepleted doc
    · rw [if_pos hu]
      simp [respOf, errResp_status, uses_ok_eq, hu]
    · rw [if_neg hu]
      by_cases he : expiresTruthy doc
      · rw [if_pos he]
        cases hp : dateParse (doc.expires_at.getD "") with
        | none => simp [respOf, errResp_status, uses_ok_eq, expires_ok_eq, hu, he, ha]
        | some ms =>
          by_cases hnow : now > ms
          · simp [respOf, errResp_status, uses_ok_eq, expires_ok_eq, hu, he, ha, hnow,
              show ¬ now ≤ ms from by omega]
          · simp [respOf, startIssue_status, uses_ok_eq, expires_ok_eq, hu, he, ha, hnow,
              show now ≤ ms from by omega]
      · rw [if_neg he]
        simp [respOf, startIssue_status, uses_ok_eq, expires_ok_eq, hu, he, ha]
  · rw [if_pos ha]
    simp [respOf, errResp_status, ha]

theorem start_status_iff (env : Env) (db : DB) (now : Int) (body : Json) :
    (respOf (startHandler env db now body) db).1.status = 200
      ↔ startOkCond db now body = true := by
  by_cases hnull : body = Json.null
  · subst hnull
    rw [startHandler_null, startOkCond_null]
    simp
  · rw [startHandler_notNull env db now body hnull]
    by_cases hc : strTrim (jsToString (jsOr (getPropTotal body "code") (Json.str ""))) = ""
    · unfold startCoreE startOkCond
      rw [if_pos hc]
      simp [respOf, errResp_status, hc]
    · cases hd : dbGetAccessCode db
          (sha256Hex (strTrim (jsToString (jsOr (getPropTotal body "code") (Json.str ""))))) with
      | none =>
        unfold startCoreE startOkCond
        rw [if_neg hc, hd]
        simp [respOf, errResp_status, hc]
      | some doc =>
        rw [startCoreE_found env db now _ doc hc hd, startOkCond_found db now body doc hd,
          startDoc_status_iff]
        simp [hc]

theorem sortInsert_ne_nil (x : HRow) (l : List HRow) : sortInsert x l ≠ [] := by
  cases l with
  | nil => simp [sortInsert]
  | cons y ys =>
    unfold sortInsert
    by_cases h : hKey y < hKey x
    · rw [if_pos h]
      simp
    · rw [if_neg h]
      simp

theorem sortInsert_perm (x : HRow) (l : List HRow) : (sortInsert x l).Perm (x :: l) := by
  induction l with
  | nil => exact List.Perm.refl _
  | cons y ys ih =>
    unfold sortInsert
    by_cases h : hKey y < hKey x
    · rw [if_pos h]
      exact (List.Perm.cons y ih).trans (List.Perm.swap x y ys)
    · rw [if_neg h]

theorem sortByTrial_perm (l : List HRow) : (sortByTrial l).Perm l := by
  induction l with
  | nil => exact List.Perm.refl _
  | cons x xs ih =>
    show (sortInsert x (sortByTrial xs)).Perm (x :: xs)
    exact (sortInsert_perm x (sortByTrial xs)).trans (List.Perm.cons x ih)

theorem sortInsert_pairwise (x : HRow) (l : List HRow)
    (h : l.Pairwise (fun a b => hKey a ≤ hKey b)) :
    (sortInsert x l).Pairwise (fun a b => hKey a ≤ hKey b) := by
  induction l with
  | nil => simp [sortInsert]
  | cons y ys ih =>
    rw [List.pairwise_cons] at h
    obtain ⟨hy, hys⟩ := h
    unfold sortInsert
    by_cases hlt : hKey y < hKey x
    · rw [if_pos hlt]
      rw [List.pairwise_cons]
      refine ⟨?_, ih hys⟩
      intro z hz
      have hz' : z ∈ x :: ys := (sortInsert_perm x ys).mem_iff.mp hz
      rcases List.mem_cons.mp hz' with rfl | hz''
      · omega
      · exact hy z hz''
    · rw [if_neg hlt]
      rw [List.pairwise_cons]
      refine ⟨?_, List.pairwise_cons.mpr ⟨hy, hys⟩⟩
      intro z hz
      rcases List.mem_cons.mp hz with rfl | hz'
      · omega
      · have := hy z hz'
        omega

theorem sortByTrial_pairwise (l : List HRow) :
    (sortByTrial l).Pairwise (fun a b => hKey a ≤ hKey b) := by
  induction l with
  | nil => simp [sortByTrial]
  | cons x xs ih =>
    show (sortInsert x (sortByTrial xs)).Pairwise _
    exact sortInsert_pairwise x (sortByTrial xs) ih

theorem sortInsert_getLast (x : HRow) (l : List HRow)
    (h : l.Pairwise (fun a b => hKey a ≤ hKey b)) :
    (sortInsert x l).getLast?
      = match l.getLast? with
        | none => some x
        | some y => if hKey y < hKey x then some x else some y := by
  induction l with
  | nil => rfl
  | cons y ys ih =>
    rw [List.pairwise_cons] at h
    obtain ⟨hy, hys⟩ := h
    unfold sortInsert
    by_cases hlt : hKey y < hKey x
    · rw [if_pos hlt]
      cases ys with
      | nil => simp [sortInsert, hlt]
      | cons z t =>
        cases hsi : sortInsert x (z :: t) with
        | nil => exact absurd hsi (sortInsert_ne_nil x (z :: t))
        | cons a as =>
          rw [@List.getLast?_cons_cons _ y a as, ← hsi, ih hys,
            @List.getLast?_cons_cons _ y z t]
    · rw [if_neg hlt]
      rw [List.getLast?_cons_cons]
      cases hz : (y :: ys).getLast? with
      | none => simp at hz
      | some z =>
        have hzin : z ∈ (y :: ys).getLast? := by
          rw [hz]
          exact Option.mem_def.mpr rfl
        have hmem : z ∈ y :: ys := List.mem_of_mem_getLast? hzin
        have hyz : hKey y ≤ hKey z := by
          rcases List.mem_cons.mp hmem with rfl | hm
          · exact le_refl _
          · exact hy z hm
        have hnz : ¬ hKey z < hKey x := by omega
        show some z = if hKey z < hKey x then some x else some z
        rw [if_neg hnz]

theorem sortByTrial_getLast (l : List HRow) :
    (sortByTrial l).getLast? = lastMaxByTrial l := by
  induction l with
  | nil => rfl
  | cons x xs ih =>
    show (sortInsert x (sortByTrial xs)).getLast? = _
    rw [sortInsert_getLast x (sortByTrial xs) (sortByTrial_pairwise xs), ih]
    rfl

theorem mem_addUnique (l : List String) (y x : String) :
    x ∈ addUnique l y ↔ x ∈ l ∨ x = y := by
  unfold addUnique
  by_cases h : y ∈ l
  · rw [if_pos h]
    constructor
    · exact Or.inl
    · rintro (hx | rfl)
      · exact hx
      · exact h
  · rw [if_neg h]
    simp

theorem mem_appeared_aux (rows : List HRow) (acc : List String) (x : String) :
    x ∈ rows.foldl (fun acc r => addUnique (addUnique acc r.left_method_id) r.right_method_id) acc
      ↔ x ∈ acc ∨ ∃ r ∈ rows, x = r.left_method_id ∨ x = r.right_method_id := by
  induction rows generalizing acc with
  | nil => simp
  | cons r rs ih =>
    rw [List.foldl_cons, ih, mem_addUnique, mem_addUnique]
    constructor
    · rintro (((hacc | hL) | hR) | ⟨s, hs, hx⟩)
      · exact Or.inl hacc
      · exact Or.inr ⟨r, List.mem_cons_self r rs, Or.inl hL⟩
      · exact Or.inr ⟨r, List.mem_cons_self r rs, Or.inr hR⟩
      · exact Or.inr ⟨s, List.mem_cons_of_mem r hs, hx⟩
    · rintro (hacc | ⟨s, hs, hx⟩)
      · exact Or.inl (Or.inl (Or.inl hacc))
      · rcases List.mem_cons.mp hs with rfl | hs'
        · rcases hx with hx | hx
          · exact Or.inl (Or.inl (Or.inr hx))
          · exact Or.inl (Or.inr hx)
        · exact Or.inr ⟨s, hs', hx⟩

theorem mem_appearedOf (rows : List HRow) (x : String) :
    x ∈ appearedOf rows ↔ ∃ r ∈ rows, x = r.left_method_id ∨ x = r.right_method_id := by
  unfold appearedOf
  rw [mem_appeared_aux]
  simp

theorem xor_lt_32 (a b : Nat) (ha : a < 4294967296) (hb : b < 4294967296) :
    a ^^^ b < 4294967296 := by
  have h32 : (4294967296 : Nat) = 2 ^ 32 := by norm_num
  rw [h32] at ha hb ⊢
  exact Nat.xor_lt_two_pow ha hb

theorem shiftRight_le_self (m n : Nat) : m >>> n ≤ m := by
  rw [Nat.shiftRight_eq_div_pow]
  exact Nat.div_le_self _ _

theorem xor_shift_lt (t k : Nat) (h : t < 4294967296) : t ^^^ (t >>> k) < 4294967296 :=
  xor_lt_32 _ _ h (lt_of_le_of_lt (shiftRight_le_self t k) h)

theorem mulberryStep_fst_lt (seed : Nat) : (mulberryStep seed).1 < 4294967296 := by
  unfold mulberryStep
  refine xor_shift_lt _ 14 ?_
  refine xor_lt_32 _ _ ?_ ?_
  · exact Nat.mod_lt _ (by norm_num)
  · exact Nat.mod_lt _ (by norm_num)

theorem rand_index_lt (r len : Nat) (hr : r < 4294967296) (hlen : 0 < len) :
    r * len / 4294967296 < len := by
  rw [Nat.div_lt_iff_lt_mul (by norm_num : 0 < 4294967296)]
  have h1 : r * len < 4294967296 * len := mul_lt_mul_of_pos_right hr hlen
  rw [Nat.mul_comm len]
  exact h1

theorem getD_mem (l : List String) (i : Nat) (h : i < l.length) : l.getD i "" ∈ l := by
  rw [List.getD_eq_getElem?_getD, List.getElem?_eq_getElem h, Option.getD_some]
  exact List.getElem_mem h

theorem nextPair_eq (pid component : String) (methodIds : List String)
    (history : List HRow) :
    AppV1.nextPair pid component methodIds history
      = if pid = "" ∨ methodIds.length < 2 then none
        else nextPairCore pid component methodIds
          (sortByTrial (history.filter
            (fun r => r.participant_id = pid ∧ r.component = component))) := by
  unfold AppV1.nextPair nextPairCore
  rfl

theorem nextPair0_eq (pid component : String) (methodIds : List String)
    (history : List HRow) :
    AppV0.nextPair pid component methodIds history
      = if methodIds.length < 2 then none
        else nextPairCore0 methodIds
          (history.filter (fun r => r.participant_id = pid ∧ r.component = component)) := by
  unfold AppV0.nextPair nextPairCore0
  rfl

theorem nextPairCore_some (pid component : String) (methodIds : List String)
    (rows : List HRow) (last : HRow) (hl : rows.getLast? = some last) :
    nextPairCore pid component methodIds rows
      = (if methodIds.filter (fun m => m ∉ appearedOf rows
            ∧ m ≠ (if last.preferred = "left" then last.left_method_id else last.right_method_id)) = []
         then none
         else some
           ((if last.preferred = "left" then last.left_method_id else last.right_method_id),
            (methodIds.filter (fun m => m ∉ appearedOf rows
               ∧ m ≠ (if last.preferred = "left" then last.left_method_id else last.right_method_id))).getD
              ((mulberryStep (hash32 (pid ++ "::" ++ component ++ "::"
                  ++ String.mk (natToChars (appearedOf rows).length)))).1
                * (methodIds.filter (fun m => m ∉ appearedOf rows
                   ∧ m ≠ (if last.preferred = "left" then last.left_method_id else last.right_method_id))).length
                / 4294967296) "")) := by
  unfold nextPairCore
  rw [hl]

theorem nextPairCore0_some (methodIds : List String) (rows : List HRow)
    (last : HRow) (hl : rows.getLast? = some last) :
    nextPairCore0 methodIds rows
      = (if methodIds.filter (fun m => m ∉ appearedOf rows
            ∧ m ≠ (if last.preferred = "left" then last.left_method_id else last.right_method_id)) = []
         then none
         else some
           ((if last.preferred = "left" then last.left_method_id else last.right_method_id),
            (methodIds.filter (fun m => m ∉ appearedOf rows
               ∧ m ≠ (if last.preferred = "left" then last.left_method_id else last.right_method_id))).getD
              (rows.length
                % (methodIds.filter (fun m => m ∉ appearedOf rows
                   ∧ m ≠ (if last.preferred = "left" then last.left_method_id else last.right_method_id))).length) "")) := by
  unfold nextPairCore0
  rw [hl]

theorem challenger_spec (methodIds : List String) (rows : List HRow) (champ : String)
    (idx : Nat)
    (hidx : idx < (methodIds.filter (fun m => m ∉ appearedOf rows ∧ m ≠ champ)).length) :
    (methodIds.filter (fun m => m ∉ appearedOf rows ∧ m ≠ champ)).getD idx "" ∈ methodIds
    ∧ (methodIds.filter (fun m => m ∉ appearedOf rows ∧ m ≠ champ)).getD idx "" ∉ appearedOf rows
    ∧ (methodIds.filter (fun m => m ∉ appearedOf rows ∧ m ≠ champ)).getD idx "" ≠ champ := by
  have hm := getD_mem _ idx hidx
  obtain ⟨h1, h2⟩ := List.mem_filter.mp hm
  have h3 := of_decide_eq_true h2
  exact ⟨h1, h3.1, h3.2⟩

theorem notin_appeared_all (history : List HRow) (pid component : String)
    (rows : List HRow)
    (hperm : rows.Perm (history.filter
      (fun r => r.participant_id = pid ∧ r.component = component)))
    (ch : String) (hch : ch ∉ appearedOf rows) :
    ∀ r ∈ history, r.participant_id = pid → r.component = component →
      ch ≠ r.left_method_id ∧ ch ≠ r.right_method_id := by
  intro r hr hp hc
  have hrF : r ∈ history.filter
      (fun r => r.participant_id = pid ∧ r.component = component) :=
    List.mem_filter.mpr ⟨hr, by simp [hp, hc]⟩
  have hrRows : r ∈ rows := hperm.mem_iff.mpr hrF
  constructor
  · intro he
    exact hch ((mem_appearedOf rows ch).mpr ⟨r, hrRows, Or.inl he⟩)
  · intro he
    exact hch ((mem_appearedOf rows ch).mpr ⟨r, hrRows, Or.inr he⟩)

theorem vote_not_start (s : String) (h : strEndsWith s "/api/vote" = true) :
    strEndsWith s "/api/start" = false := by
  unfold strEndsWith at h ⊢
  rw [List.isSuffixOf_iff_suffix] at h
  by_contra hb
  rw [Bool.not_eq_false, List.isSuffixOf_iff_suffix] at hb
  rcases List.suffix_or_suffix_of_suffix h hb with hs | hs
  · exact absurd hs (by decide)
  · exact absurd hs (by decide)

theorem voteHandler_notNull (env : Env) (db : DB) (now : Int) (body : Json)
    (hnn : body ≠ Json.null) :
    voteHandler env db now body
      = voteCoreE env db now (getPropTotal body "token") (getPropTotal body "vote") := by
  rw [voteHandler_eq]
  unfold voteHandlerX voteCoreE
  rw [getProp_ok body "token" hnn, getProp_ok body "vote" hnn]

theorem voteCore_expired (env : Env) (db : DB) (now : Int)
    (tokJ voteJ : Option Json) (tk : String) (voteV : Json)
    (htok : tokJ = some (Json.str tk)) (htkne : tk ≠ "")
    (hvj : voteJ = some voteV) (hvt : jsTruthy voteV = true)
    (hver : verifyToken env now tk = .error "Token expired") :
    voteCoreE env db now tokJ voteJ = .ok (errResp 403 "Token expired", db) := by
  subst htok
  subst hvj
  unfold voteCoreE
  have ht : jsTruthy (Json.str tk) = true := by simp [jsTruthy, htkne]
  have hjs : jsToString (jsOr (some (Json.str tk)) (Json.str "")) = tk := by
    simp [jsOr, ht, jsToString]
  rw [hjs]
  rw [if_neg (by
    rintro (h | h)
    · exact htkne h
    · exact h hvt)]
  rw [hver]
  rfl

theorem fetch_start (env : Env) (db : DB) (now : Int) (req : Req)
    (horig : originAllowed env req.origin = true)
    (hmeth : req.method = "POST")
    (hpath : strEndsWith req.path "/api/start" = true) :
    fetchHandler env db now req = startHandler env db now req.body := by
  unfold fetchHandler
  rw [if_neg (by simp [hmeth]), if_neg (not_not_intro horig),
    if_neg (not_not_intro hmeth), if_pos hpath]

theorem fetch_vote (env : Env) (db : DB) (now : Int) (req : Req)
    (horig : originAllowed env req.origin = true)
    (hmeth : req.method = "POST")
    (hpath : strEndsWith req.path "/api/vote" = true) :
    fetchHandler env db now req = voteHandler env db now req.body := by
  unfold fetchHandler
  rw [if_neg (by simp [hmeth]), if_neg (not_not_intro horig),
    if_neg (not_not_intro hmeth), if_neg (by simp [vote_not_start req.path hpath]),
    if_pos hpath]

/-- Claim C1 (amended): for a POST `/api/start` request from an allowed
origin, the response is 200 exactly when the trimmed code is non-empty, a
matching active row exists with uses null-or-positive, and `expires_at` is
absent, **empty**, or parses to a time not earlier than now; a 200 carries
`{ok, token}`, and every other outcome is a 400, 403 or 500. The original
claim omits the empty-string case, which the truthiness guard lets
through. -/
theorem claim_C1_start_gate (env : Env) (db : DB) (now : Int) (req : Req)
    (horig : originAllowed env req.origin = true)
    (hmeth : req.method = "POST")
    (hpath : strEndsWith req.path "/api/start" = true) :
    ((runtimeFetch env db now req).1.status = 200 ↔ startOkCond db now req.body = true)
    ∧ ((runtimeFetch env db now req).1.status = 200 →
        ∃ t, (runtimeFetch env db now req).1.body
          = Json.obj [("ok", Json.bool true), ("token", Json.str t)])
    ∧ ((runtimeFetch env db now req).1.status ≠ 200 →
        (runtimeFetch env db now req).1.status = 400
        ∨ (runtimeFetch env db now req).1.status = 403
        ∨ (runtimeFetch env db now req).1.status = 500) := by
  have hrt : runtimeFetch env db now req = respOf (startHandler env db now req.body) db := by
    rw [runtimeFetch_eq, fetch_start env db now req horig hmeth hpath]
  refine ⟨?_, ?_, ?_⟩
  · rw [hrt]
    exact start_status_iff env db now req.body
  · intro h200
    rw [hrt] at h200
    rw [hrt]
    cases hs : startHandler env db now req.body with
    | error m =>
      rw [hs] at h200
      simp [respOf] at h200
    | ok r =>
      obtain ⟨res, db2⟩ := r
      rw [hs] at h200
      rcases startHandler_cases env db now req.body res db2 hs with ⟨-, hbody, -⟩ | ⟨⟨m, hm⟩, -⟩
      · simpa [respOf] using hbody
      · exfalso
        rcases hm with rfl | rfl | rfl <;> simp [respOf, errResp] at h200
  · intro hne
    rw [hrt] at hne
    rw [hrt]
    cases hs : startHandler env db now req.body with
    | error m =>
      simp [respOf]
    | ok r =>
      obtain ⟨res, db2⟩ := r
      rw [hs] at hne
      rcases startHandler_cases env db now req.body res db2 hs with ⟨h200, -, -⟩ | ⟨⟨m, hm⟩, -⟩
      · exact absurd h200 (by simpa [respOf] using hne)
      · rcases hm with rfl | rfl | rfl
        · exact Or.inl (by simp [respOf, errResp])
        · exact Or.inr (Or.inl (by simp [respOf, errResp]))
        · exact Or.inr (Or.inr (by simp [respOf, errResp]))

/-- Claim C1 witness: a concrete allowed start request against a concrete
database, with the gate hypotheses discharged by evaluation. -/
theorem claim_C1_start_gate_witness :
    originAllowed wEnv wStartReq.origin = true
    ∧ ((runtimeFetch wEnv wDb 0 wStartReq).1.status = 200
        ↔ startOkCond wDb 0 wStartReq.body = true) := by
  have h := claim_C1_start_gate wEnv wDb 0 wStartReq (by decide) rfl (by decide)
  exact ⟨by decide, h.1⟩

set_option maxRecDepth 100000 in
/-- Claim C1 counterexample to the original statement: a row whose
`expires_at` is the empty string gets a 200 token although `""` does not
parse as a date, so the claimed condition ("absent or parses to a time not
earlier than now") is false while the handler still answers 200. -/
theorem claim_C1_counterexample :
    (runtimeFetch wEnv wDbEmptyExp 0 wStartReq).1.status = 200
    ∧ startOkCondClaimed wDbEmptyExp 0 wStartReq.body = false
    ∧ startOkCond wDbEmptyExp 0 wStartReq.body = true :=
  ⟨rfl, rfl, rfl⟩

/-- Claim C2 (amended): the token round-trip holds for every **non-null**
payload whose `exp` is absent or a number not earlier than now. The original
claim ranges over every JSON-serializable payload, but the `null` payload
crashes `verifyToken` on the `payload.exp` read. -/
theorem claim_C2_token_roundtrip (env : Env) (now : Int) (p : Json)
    (hnn : p ≠ Json.null)
    (hexp : getPropTotal p "exp" = none
      ∨ ∃ e : Int, getPropTotal p "exp" = some (Json.num e) ∧ now ≤ e) :
    verifyToken env now (makeToken env p) = .ok p :=
  verifyToken_makeToken_ok env now p hnn hexp

/-- Claim C2 witness: a concrete payload without `exp` round-trips. -/
theorem claim_C2_token_roundtrip_witness :
    verifyToken wEnv 0 (makeToken wEnv (Json.obj [("codeHash", Json.str "h")]))
      = .ok (Json.obj [("codeHash", Json.str "h")]) :=
  claim_C2_token_roundtrip wEnv 0 (Json.obj [("codeHash", Json.str "h")])
    (fun h => Json.noConfusion h) (Or.inl rfl)

/-- Claim C2 counterexample to the original statement: `null` is
JSON-serializable and has no `exp` field, yet verifying its own minted token
throws a TypeError instead of returning the payload. -/
theorem claim_C2_counterexample :
    verifyToken wEnv 0 (makeToken wEnv Json.null)
      = .error "TypeError: Cannot read properties of null" := by
  rw [verifyToken_makeToken]
  rfl

/-- Claim C3 (amended): expiry rejection holds for every well-signed token
whose decoded payload carries a **non-zero** numeric `exp` strictly before
now; the vote endpoint then answers 403 `Token expired` and writes nothing.
The original claim has no non-zero proviso, but `exp = 0` is falsy and skips
the check. -/
theorem claim_C3_expiry_rejection (env : Env) (db : DB) (now : Int) (req : Req)
    (body : String) (p : Json) (e : Int)
    (hb : ∀ x ∈ body.data, x ≠ '.')
    (hdec : fromB64Json body = some p)
    (hexp : getPropTotal p "exp" = some (Json.num e))
    (hne : e ≠ 0) (hlt : e < now)
    (horig : originAllowed env req.origin = true)
    (hmeth : req.method = "POST")
    (hpath : strEndsWith req.path "/api/vote" = true)
    (hnn : req.body ≠ Json.null)
    (htok : getPropTotal req.body "token"
      = some (Json.str (body ++ "." ++ hmacSign env.TOKEN_SECRET body)))
    (voteV : Json)
    (hvote : getPropTotal req.body "vote" = some voteV)
    (hvt : jsTruthy voteV = true) :
    verifyToken env now (body ++ "." ++ hmacSign env.TOKEN_SECRET body)
      = .error "Token expired"
    ∧ runtimeFetch env db now req = (errResp 403 "Token expired", db) := by
  have hver := verifyToken_expired env now body hb p hdec e hexp hne hlt
  have htkne : body ++ "." ++ hmacSign env.TOKEN_SECRET body ≠ "" := by
    apply string_ne_empty_of_data
    rw [string_data_append]
    intro h0
    exact hmacSign_ne_empty env.TOKEN_SECRET body (List.append_eq_nil.mp h0).2
  refine ⟨hver, ?_⟩
  rw [runtimeFetch_eq, fetch_vote env db now req horig hmeth hpath,
    voteHandler_notNull env db now req.body hnn,
    voteCore_expired env db now (getPropTotal req.body "token")
      (getPropTotal req.body "vote") (body ++ "." ++ hmacSign env.TOKEN_SECRET body)
      voteV htok htkne hvote hvt hver]
  rfl

/-- Claim C3 witness: a concrete expired token (exp 5, now 100) is rejected
and the concrete vote request answers 403 with the database unchanged. -/
theorem claim_C3_expiry_rejection_witness :
    verifyToken wEnv 100 (b64Json wP3 ++ "." ++ hmacSign wEnv.TOKEN_SECRET (b64Json wP3))
      = .error "Token expired"
    ∧ runtimeFetch wEnv wDb 100 wVoteReq = (errResp 403 "Token expired", wDb) :=
  claim_C3_expiry_rejection wEnv wDb 100 wVoteReq (b64Json wP3) wP3 5
    (b64Json_no_dot wP3) (fromB64Json_b64Json wP3) rfl (by decide) (by decide)
    (by decide) rfl (by decide) (fun h => Json.noConfusion h) rfl
    (Json.obj [("participant_id", Json.str "P1")]) rfl rfl

/-- Claim C3 counterexample to the original statement: a well-signed token
whose payload carries `exp = 0`, strictly less than now = 1000, verifies
successfully instead of throwing `Token expired`, because `0` is falsy. -/
theorem claim_C3_counterexample :
    verifyToken wEnv 1000 (makeToken wEnv (Json.obj [("exp", Json.num 0)]))
      = .ok (Json.obj [("exp", Json.num 0)]) := by
  rw [verifyToken_makeToken]
  rfl

/-- Claim C4: the vote id is the composite `participant__component__trial`
key, upserting the same row twice equals upserting it once, and when the id
is already present the upsert overwrites in place (same row count, row
present) instead of appending. -/
theorem claim_C4_vote_upsert_idempotent (db : DB) (row : VoteRow)
    (vote : Json) (preferred : String) (now : Int) :
    (mkVoteRow vote preferred now).id
      = jsToStringU (getPropTotal vote "participant_id") ++ "__"
        ++ jsToStringU (getPropTotal vote "component") ++ "__"
        ++ trialToStr (jsToNumberU (getPropTotal vote "trial_id"))
    ∧ dbUpsertVote (dbUpsertVote db row) row = dbUpsertVote db row
    ∧ (db.votes.any (fun r => r.id = row.id) = true →
        (dbUpsertVote db row).votes.length = db.votes.length)
    ∧ row ∈ (dbUpsertVote db row).votes :=
  ⟨rfl, dbUpsertVote_idem db row, dbUpsertVote_length db row, dbUpsertVote_mem db row⟩

/-- Claim C4 witness: a concrete database already holding the row's id. -/
theorem claim_C4_vote_upsert_idempotent_witness :
    dbUpsertVote (dbUpsertVote wDbVotes wVoteRow) wVoteRow = dbUpsertVote wDbVotes wVoteRow
    ∧ (dbUpsertVote wDbVotes wVoteRow).votes.length = wDbVotes.votes.length
    ∧ wVoteRow ∈ (dbUpsertVote wDbVotes wVoteRow).votes := by
  have h := claim_C4_vote_upsert_idempotent wDbVotes wVoteRow (Json.obj []) "left" 0
  exact ⟨h.2.1, h.2.2.1 (by decide), h.2.2.2⟩

/-- Claim C5: in both App variants, whenever `nextPair` returns a pair and
there is a most recent vote for the participant and component (by sorted
trial order for the main variant, by history order for the simple one), the
first element is that vote's preferred method and the second is a method
from the list neither seen before nor equal to the champion. -/
theorem claim_C5_champion_challenger (pid component : String)
    (methodIds : List String) (history : List HRow)
    (champ ch : String) (last : HRow) :
    (AppV1.nextPair pid component methodIds history = some (champ, ch) →
      lastMaxByTrial (history.filter
        (fun r => r.participant_id = pid ∧ r.component = component)) = some last →
      champ = (if last.preferred = "left" then last.left_method_id
               else last.right_method_id)
      ∧ ch ∈ methodIds
      ∧ (∀ r ∈ history, r.participant_id = pid → r.component = component →
          ch ≠ r.left_method_id ∧ ch ≠ r.right_method_id)
      ∧ ch ≠ champ)
    ∧ (AppV0.nextPair pid component methodIds history = some (champ, ch) →
      (history.filter
        (fun r => r.participant_id = pid ∧ r.component = component)).getLast?
        = some last →
      champ = (if last.preferred = "left" then last.left_method_id
               else last.right_method_id)
      ∧ ch ∈ methodIds
      ∧ (∀ r ∈ history, r.participant_id = pid → r.component = component →
          ch ≠ r.left_method_id ∧ ch ≠ r.right_method_id)
      ∧ ch ≠ champ) := by
  constructor
  · intro hpair hlast
    rw [nextPair_eq] at hpair
    by_cases hg : pid = "" ∨ methodIds.length < 2
    · rw [if_pos hg] at hpair
      exact Option.noConfusion hpair
    · rw [if_neg hg] at hpair
      have hl : (sortByTrial (history.filter
          (fun r => r.participant_id = pid ∧ r.component = component))).getLast?
          = some last := by
        rw [sortByTrial_getLast]
        exact hlast
      rw [nextPairCore_some pid component methodIds _ last hl] at hpair
      by_cases huns : methodIds.filter (fun m =>
          m ∉ appearedOf (sortByTrial (history.filter
            (fun r => r.participant_id = pid ∧ r.component = component)))
          ∧ m ≠ (if last.preferred = "left" then last.left_method_id
                 else last.right_method_id)) = []
      · rw [if_pos huns] at hpair
        exact Option.noConfusion hpair
      · rw [if_neg huns] at hpair
        injection hpair with hp
        rw [Prod.mk.injEq] at hp
        obtain ⟨hp1, hp2⟩ := hp
        have hlen : 0 < (methodIds.filter (fun m =>
            m ∉ appearedOf (sortByTrial (history.filter
              (fun r => r.participant_id = pid ∧ r.component = component)))
            ∧ m ≠ (if last.preferred = "left" then last.left_method_id
                   else last.right_method_id))).length :=
          List.length_pos.mpr huns
        have hidx := rand_index_lt
          (mulberryStep (hash32 (pid ++ "::" ++ component ++ "::"
            ++ String.mk (natToChars (appearedOf (sortByTrial (history.filter
              (fun r => r.participant_id = pid ∧ r.component = component)))).length)))).1
          (methodIds.filter (fun m =>
            m ∉ appearedOf (sortByTrial (history.filter
              (fun r => r.participant_id = pid ∧ r.component = component)))
            ∧ m ≠ (if last.preferred = "left" then last.left_method_id
                   else last.right_method_id))).length
          (mulberryStep_fst_lt _) hlen
        have hspec := challenger_spec methodIds
          (sortByTrial (history.filter
            (fun r => r.participant_id = pid ∧ r.component = component)))
          (if last.preferred = "left" then last.left_method_id
           else last.right_method_id)
          _ hidx
        rw [hp2] at hspec
        refine ⟨hp1.symm, hspec.1, ?_, by rw [← hp1]; exact hspec.2.2⟩
        exact notin_appeared_all history pid component _ (sortByTrial_perm _) ch hspec.2.1
  · intro hpair hlast
    rw [nextPair0_eq] at hpair
    by_cases hg : methodIds.length < 2
    · rw [if_pos hg] at hpair
      exact Option.noConfusion hpair
    · rw [if_neg hg] at hpair
      rw [nextPairCore0_some methodIds _ last hlast] at hpair
      by_cases huns : methodIds.filter (fun m =>
          m ∉ appearedOf (history.filter
            (fun r => r.participant_id = pid ∧ r.component = component))
          ∧ m ≠ (if last.preferred = "left" then last.left_method_id
                 else last.right_method_id)) = []
      · rw [if_pos huns] at hpair
        exact Option.noConfusion hpair
      · rw [if_neg huns] at hpair
        injection hpair with hp
        rw [Prod.mk.injEq] at hp
        obtain ⟨hp1, hp2⟩ := hp
        have hlen : 0 < (methodIds.filter (fun m =>
            m ∉ appearedOf (history.filter
              (fun r => r.participant_id = pid ∧ r.component = component))
            ∧ m ≠ (if last.preferred = "left" then last.left_method_id
                   else last.right_method_id))).length :=
          List.length_pos.mpr huns
        have hspec := challenger_spec methodIds
          (history.filter (fun r => r.participant_id = pid ∧ r.component = component))
          (if last.preferred = "left" then last.left_method_id
           else last.right_method_id)
          _ (Nat.mod_lt (history.filter
              (fun r => r.participant_id = pid ∧ r.component = component)).length hlen)
        rw [hp2] at hspec
        refine ⟨hp1.symm, hspec.1, ?_, by rw [← hp1]; exact hspec.2.2⟩
        exact notin_appeared_all history pid component _ (List.Perm.refl _) ch hspec.2.1

/-- Claim C5 witness: one concrete history where both variants pick
champion m1 and unseen challenger m3. -/
theorem claim_C5_champion_challenger_witness :
    AppV1.nextPair "P1" "cs" wMethods wHistory = some ("m1", "m3")
    ∧ AppV0.nextPair "P1" "cs" wMethods wHistory = some ("m1", "m3")
    ∧ "m3" ∈ wMethods ∧ "m3" ≠ "m1" := by
  have h := claim_C5_champion_challenger "P1" "cs" wMethods wHistory "m1" "m3" wHRow
  have h1 := h.1 rfl rfl
  exact ⟨rfl, rfl, h1.2.1, h1.2.2.2⟩

/-- Claim C6: the pairing is deterministic — it is a function of the
participant id, the component, the method list, and the relevant filtered
history alone (in particular the shuffle seed is derived only from
`pid::component`), so histories agreeing on the relevant rows give equal
pairs. -/
theorem claim_C6_pairing_deterministic (pid component : String)
    (methodIds : List String) (h1 h2 : List HRow)
    (hfilter : h1.filter (fun r => r.participant_id = pid ∧ r.component = component)
      = h2.filter (fun r => r.participant_id = pid ∧ r.component = component)) :
    AppV1.nextPair pid component methodIds h1
      = AppV1.nextPair pid component methodIds h2 := by
  rw [nextPair_eq, nextPair_eq, hfilter]

/-- Claim C6 witness: adding another participant's row leaves the pair
unchanged. -/
theorem claim_C6_pairing_deterministic_witness :
    wHistory.filter (fun r => r.participant_id = "P1" ∧ r.component = "cs")
      = wHistory2.filter (fun r => r.participant_id = "P1" ∧ r.component = "cs")
    ∧ AppV1.nextPair "P1" "cs" wMethods wHistory
      = AppV1.nextPair "P1" "cs" wMethods wHistory2 :=
  ⟨rfl,
   claim_C6_pairing_deterministic "P1" "cs" wMethods wHistory wHistory2 rfl⟩

/-- Claim C7: every response the fetch handler itself produces is a 200
success, the 204 preflight, or an `{error: string}` JSON body with status
400, 403, 404, 405 or 500. -/
theorem claim_C7_error_shape (env : Env) (db : DB) (now : Int) (req : Req)
    (res : WorkerResponse) (db' : DB)
    (h : fetchHandler env db now req = .ok (res, db')) :
    res.status = 200 ∨ res.status = 204
    ∨ ((res.status = 400 ∨ res.status = 403 ∨ res.status = 404
        ∨ res.status = 405 ∨ res.status = 500)
       ∧ ∃ m, res.body = Json.obj [("error", Json.str m)]) := by
  unfold fetchHandler at h
  split at h
  · obtain ⟨hres, -⟩ := ok_pair_inj h
    subst hres
    exact Or.inr (Or.inl rfl)
  · split at h
    · obtain ⟨hres, -⟩ := ok_pair_inj h
      subst hres
      exact Or.inr (Or.inr ⟨Or.inr (Or.inl rfl), ⟨_, rfl⟩⟩)
    · split at h
      · obtain ⟨hres, -⟩ := ok_pair_inj h
        subst hres
        exact Or.inr (Or.inr ⟨Or.inr (Or.inr (Or.inr (Or.inl rfl))), ⟨_, rfl⟩⟩)
      · split at h
        · rcases startHandler_cases env db now req.body res db' h with
            ⟨h200, -, -⟩ | ⟨⟨m, hm⟩, -⟩
          · exact Or.inl h200
          · rcases hm with rfl | rfl | rfl
            · exact Or.inr (Or.inr ⟨Or.inl rfl, ⟨m, rfl⟩⟩)
            · exact Or.inr (Or.inr ⟨Or.inr (Or.inl rfl), ⟨m, rfl⟩⟩)
            · exact Or.inr (Or.inr ⟨Or.inr (Or.inr (Or.inr (Or.inr rfl))), ⟨m, rfl⟩⟩)
        · split at h
          · rcases voteHandler_cases env db now req.body res db' h with
              ⟨h200, -, -⟩ | ⟨⟨m, hm⟩, -⟩
            · exact Or.inl h200
            · rcases hm with rfl | rfl
              · exact Or.inr (Or.inr ⟨Or.inl rfl, ⟨m, rfl⟩⟩)
              · exact Or.inr (Or.inr ⟨Or.inr (Or.inl rfl), ⟨m, rfl⟩⟩)
          · obtain ⟨hres, -⟩ := ok_pair_inj h
            subst hres
            exact Or.inr (Or.inr ⟨Or.inr (Or.inr (Or.inl rfl)), ⟨_, rfl⟩⟩)

/-- Claim C7 witness: the rejected-origin response instantiates the shape. -/
theorem claim_C7_error_shape_witness :
    (errResp 403 "Origin not allowed").status = 200
    ∨ (errResp 403 "Origin not allowed").status = 204
    ∨ (((errResp 403 "Origin not allowed").status = 400
        ∨ (errResp 403 "Origin not allowed").status = 403
        ∨ (errResp 403 "Origin not allowed").status = 404
        ∨ (errResp 403 "Origin not allowed").status = 405
        ∨ (errResp 403 "Origin not allowed").status = 500)
       ∧ ∃ m, (errResp 403 "Origin not allowed").body
          = Json.obj [("error", Json.str m)]) :=
  claim_C7_error_shape wEnv wDb 0 wBadReq (errResp 403 "Origin not allowed") wDb rfl

/-- Claim C8: non-OPTIONS requests from a missing, empty, or unlisted
origin get 403 `Origin not allowed` with the database untouched;
`originAllowed` holds exactly for a non-empty origin in the trimmed
comma-separated allow-list; an empty `ALLOWED_ORIGINS` rejects everything. -/
theorem claim_C8_cors_gate (env : Env) (db : DB) (now : Int) (req : Req) :
    (req.method ≠ "OPTIONS" → originAllowed env req.origin = false →
      runtimeFetch env db now req = (errResp 403 "Origin not allowed", db))
    ∧ (originAllowed env req.origin = true
        ↔ (req.origin ≠ "" ∧ req.origin ∈ allowedList env))
    ∧ (env.ALLOWED_ORIGINS = "" → originAllowed env req.origin = false) := by
  refine ⟨?_, ?_, ?_⟩
  · intro hopt hallow
    rw [runtimeFetch_eq]
    unfold fetchHandler
    rw [if_neg hopt, if_pos (by simp [hallow])]
    rfl
  · unfold originAllowed
    rw [Bool.and_eq_true, decide_eq_true_eq]
    constructor
    · rintro ⟨h1, h2⟩
      refine ⟨h1, ?_⟩
      simpa using h2
    · rintro ⟨h1, h2⟩
      refine ⟨h1, ?_⟩
      simpa using h2
  · intro h
    have hl : allowedList env = [] := by
      unfold allowedList
      rw [h]
      rfl
    unfold originAllowed
    rw [hl]
    simp

/-- Claim C8 witness: with an empty allow-list, a concrete POST request is
rejected. -/
theorem claim_C8_cors_gate_witness :
    runtimeFetch wEnvNoOrig wDb 0 wBadReq = (errResp 403 "Origin not allowed", wDb)
    ∧ originAllowed wEnvNoOrig wBadReq.origin = false := by
  have h := claim_C8_cors_gate wEnvNoOrig wDb 0 wBadReq
  have hfalse := h.2.2 rfl
  exact ⟨h.1 (by decide) hfalse, hfalse⟩

/-- Claim C9: a database in which no non-null `uses_remaining` is negative
keeps that property under any sequence of requests, because the decrement
statement only fires on rows with `uses_remaining` non-null and strictly
positive. -/
theorem claim_C9_uses_nonnegative (env : Env) (db : DB)
    (reqs : List (Int × Req)) (hinv : usesInv db) :
    usesInv (runSeq env db reqs)
    ∧ ∀ codeHash, usesInv (dbDecrementUsesRemaining db codeHash) :=
  ⟨usesInv_runSeq env reqs db hinv, fun ch => usesInv_decrement db ch hinv⟩

/-- Claim C9 witness: the invariant holds for a concrete database and is
preserved across a concrete start request. -/
theorem claim_C9_uses_nonnegative_witness :
    usesInv wDb ∧ usesInv (runSeq wEnv wDb [(0, wStartReq)]) := by
  have h := claim_C9_uses_nonnegative wEnv wDb [(0, wStartReq)] (by decide)
  exact ⟨by decide, h.1⟩

/-- Claim C10: `stableShuffle` permutes its input — the output has exactly
the input's elements with the same multiplicities. (The model is
persistent, so the input list itself is unchanged by construction; the
source copies the array before shuffling.) -/
theorem claim_C10_shuffle_permutation (arr : List String) (seedStr : String) :
    (stableShuffle arr seedStr).Perm arr
    ∧ ∀ x : String, (stableShuffle arr seedStr).count x = arr.count x := by
  have hp := stableShuffle_perm arr seedStr
  exact ⟨hp, fun x => hp.count_eq x⟩
